import Mathlib

/-!
# frc-shirt-aggregator: a shallow embedding of `main.go`

Go strings are byte sequences, so a string is a list of bytes and `len`, indexing and
slicing are the list operations.  `int` is the 64-bit signed integer; it is embedded in
`Int` and reduced with `wrapInt` where an operation of the program can leave the range.
A panic (and the fatal stack overflow of an unbounded recursion) is an `Except.error`.

Library functions the program calls (`strconv.Atoi`, `strings.Split`, `strings.Index`,
`strings.Trim`, `strings.TrimSpace`, the `%c` verb) are embedded from the behaviour of the
Go standard library.
-/

namespace ShirtAggregator

/-! ## Bytes, strings and machine integers -/

/-- One byte of a Go string. -/
abbrev Byte := Fin 256

/-- Go `string`: an immutable sequence of bytes. -/
abbrev GoString := List Byte

/-- The bytes (UTF-8) of a string literal of the source. -/
def bytes (s : String) : GoString := s.toUTF8.data.toList.map (fun b => b.val)

/-- `const MaxInt int = int(^uint(0) >> 1)` on a 64-bit platform. -/
def MaxInt : Int := 2 ^ 63 - 1

/-- `const MinInt int = -MaxInt - 1`. -/
def MinInt : Int := -MaxInt - 1

/-- Two's complement reduction of a mathematical integer to the range of `int`. -/
def wrapInt (x : Int) : Int := (x + 2 ^ 63) % 2 ^ 64 - 2 ^ 63

/-- Ways in which the program aborts. -/
inductive Fault where
  /-- `panic(msg)` raised by `handleErr` for a failed integer conversion. -/
  | couldNotConvert
  /-- `panic(msg)` raised by `handleErr` when the sheet with this ID cannot be retrieved. -/
  | cannotRetrieve (id : GoString)
  /-- Run-time panic: slice index out of range. -/
  | indexOutOfRange
  /-- Run-time panic: failed type assertion `.(string)`. -/
  | typeAssertion
  /-- Fatal error: the goroutine stack is exhausted by a recursion that does not end. -/
  | stackOverflow
  deriving DecidableEq, Repr

deriving instance DecidableEq for Except

/-! ## Library functions -/

/-- Error value of `strconv`: a syntax error or a range error. -/
inductive NumError where
  | syntaxErr
  | rangeErr
  deriving DecidableEq, Repr

/-- Loop of `strconv.ParseUint(s, 10, 64)` over the remaining bytes with accumulator `n`.
Any byte that is not a decimal digit is a syntax error; leaving the range of `uint64`
is a range error that returns the maximal value. -/
def parseUintLoop : GoString → Nat → Nat × Option NumError
  | [], n => (n, none)
  | c :: cs, n =>
    if 48 ≤ c.val ∧ c.val ≤ 57 then
      if n ≥ (2 ^ 64 - 1) / 10 + 1 then (2 ^ 64 - 1, some NumError.rangeErr)
      else
        let n1 := n * 10 + (c.val - 48)
        if n1 > 2 ^ 64 - 1 then (2 ^ 64 - 1, some NumError.rangeErr)
        else parseUintLoop cs n1
    else (0, some NumError.syntaxErr)

/-- Go `strconv.ParseUint(s, 10, 64)`. -/
def parseUint (s : GoString) : Nat × Option NumError :=
  if s = [] then (0, some NumError.syntaxErr) else parseUintLoop s 0

/-- Go `strconv.Atoi(s)` (which is `ParseInt(s, 10, 0)`; its fast path for short inputs
returns the same results): an optional sign followed by decimal digits, the value within
the range of `int`.  Returns the value together with the error, as Go does. -/
def atoi (s : GoString) : Int × Option NumError :=
  match s with
  | [] => (0, some NumError.syntaxErr)
  | c :: cs =>
    let neg : Bool := c = 45
    let body : GoString := if c = 43 ∨ c = 45 then cs else s
    match parseUint body with
    | (_, some NumError.syntaxErr) => (0, some NumError.syntaxErr)
    | (un, _) =>
      if neg = false ∧ un ≥ 2 ^ 63 then (2 ^ 63 - 1, some NumError.rangeErr)
      else if neg = true ∧ un > 2 ^ 63 then (-(2 ^ 63), some NumError.rangeErr)
      else (if neg then -(un : Int) else (un : Int), none)

/-- Go `strings.Split(s, sep)` for a one-byte separator: the substrings between
the separators, one more than there are separators. -/
def splitOn (sep : Byte) : GoString → List GoString
  | [] => [[]]
  | c :: cs =>
    if c = sep then [] :: splitOn sep cs
    else
      match splitOn sep cs with
      | [] => [[c]]
      | t :: ts => (c :: t) :: ts

/-- Go `strings.Index(s, sep)` for a one-byte separator: the index of its first
occurrence, or -1. -/
def indexByte (sep : Byte) : GoString → Int
  | [] => -1
  | c :: cs =>
    if c = sep then 0
    else
      let i := indexByte sep cs
      if i < 0 then -1 else i + 1

/-- Go `strings.Contains(s, sep)` for a one-byte separator. -/
def containsByte (sep : Byte) (s : GoString) : Bool := decide (indexByte sep s ≥ 0)

/-- Slice expression `s[:i]` for an index within the string. -/
def sliceTo (s : GoString) (i : Int) : GoString := s.take i.toNat

/-- Slice expression `s[i:]` for an index within the string. -/
def sliceFrom (s : GoString) (i : Int) : GoString := s.drop i.toNat

/-! ## `handleErr` and `isExcluded` -/

/-- `handleErr(err, doPanic, msg)`: panics with the message when there is an error and
`doPanic` is set; otherwise it only prints, which changes no state of the model. -/
def handleErr (err : Option NumError) (doPanic : Bool) (msg : Fault) : Except Fault Unit :=
  match err with
  | some _ => if doPanic then Except.error msg else Except.ok ()
  | none => Except.ok ()

/-- The loop `for _, term := range terms` of `isExcluded`. -/
def isExcludedLoop (idx : Int) : List GoString → Except Fault Bool
  | [] => Except.ok false
  | term :: terms =>
    if containsByte 58 term then
      let colonIdx := indexByte 58 term
      let lowTerm := sliceTo term colonIdx
      let lowerR : Except Fault Int :=
        if lowTerm.length = 0 then Except.ok 0
        else
          match handleErr (atoi lowTerm).2 true Fault.couldNotConvert with
          | Except.error f => Except.error f
          | Except.ok _ => Except.ok (atoi lowTerm).1
      match lowerR with
      | Except.error f => Except.error f
      | Except.ok lower =>
        let highTerm := sliceFrom term (colonIdx + 1)
        let upperR : Except Fault Int :=
          if highTerm.length = 0 then Except.ok MaxInt
          else
            match handleErr (atoi highTerm).2 true Fault.couldNotConvert with
            | Except.error f => Except.error f
            | Except.ok _ => Except.ok (atoi highTerm).1
        match upperR with
        | Except.error f => Except.error f
        | Except.ok upper =>
          if idx ≥ lower ∧ idx ≤ upper then Except.ok true
          else isExcludedLoop idx terms
    else if term.length ≠ 0 then
      match handleErr (atoi term).2 true Fault.couldNotConvert with
      | Except.error f => Except.error f
      | Except.ok _ =>
        if idx = (atoi term).1 then Except.ok true
        else isExcludedLoop idx terms
    else isExcludedLoop idx terms

/-- `isExcluded(idx, exclRows)`: whether a row index is excluded by a row-exclude spec. -/
def isExcluded (idx : Int) (exclRows : GoString) : Except Fault Bool :=
  isExcludedLoop idx (splitOn 44 exclRows)

/-! ## More library functions: runes, trimming -/

/-- UTF-8 encoding of a code point (`utf8.AppendRune`): surrogates and values above
U+10FFFF are encoded as U+FFFD. -/
def encodeRune (r : Nat) : GoString :=
  if r < 128 then [Fin.ofNat r]
  else if r < 2048 then [Fin.ofNat (192 + r / 64), Fin.ofNat (128 + r % 64)]
  else if (55296 ≤ r ∧ r ≤ 57343) ∨ r > 1114111 then [239, 191, 189]
  else if r < 65536 then
    [Fin.ofNat (224 + r / 4096), Fin.ofNat (128 + r / 64 % 64), Fin.ofNat (128 + r % 64)]
  else
    [Fin.ofNat (240 + r / 262144), Fin.ofNat (128 + r / 4096 % 64),
     Fin.ofNat (128 + r / 64 % 64), Fin.ofNat (128 + r % 64)]

/-- Conversion `string(b)` of a byte: the UTF-8 encoding of the code point `b`
(one byte below 128, two bytes from 128 on). -/
def byteToString (b : Byte) : GoString := encodeRune b.val

/-- Verb `%c` of `fmt.Sprintf` for an `int` operand: the operand is converted to
`uint64`, and a value above U+10FFFF (so every negative one) is printed as U+FFFD. -/
def fmtC (v : Int) : GoString :=
  if v < 0 ∨ v > 1114111 then encodeRune 65533 else encodeRune v.toNat

/-- Go `strings.Trim(s, string(c))` for one ASCII byte `c`: all leading and trailing
occurrences of `c` removed. -/
def trimByte (c : Byte) (s : GoString) : GoString :=
  ((s.reverse.dropWhile (fun b => b = c)).reverse).dropWhile (fun b => b = c)

/-- The ASCII white space of `unicode.IsSpace`: tab, newline, vertical tab, form feed,
carriage return, space. -/
def asciiSpace (b : Byte) : Bool := (9 ≤ b.val ∧ b.val ≤ 13) ∨ b.val = 32

/-- The two-byte encodings of white space: U+0085 and U+00A0. -/
def space2 (a b : Byte) : Bool := a.val = 194 ∧ (b.val = 133 ∨ b.val = 160)

/-- The three-byte encodings of white space: U+1680, U+2000 to U+200A, U+2028, U+2029,
U+202F, U+205F, U+3000. -/
def space3 (a b c : Byte) : Bool :=
  (a.val = 225 ∧ b.val = 154 ∧ c.val = 128) ∨
  (a.val = 226 ∧ b.val = 128 ∧ ((128 ≤ c.val ∧ c.val ≤ 138) ∨ c.val = 168 ∨ c.val = 169 ∨ c.val = 175)) ∨
  (a.val = 226 ∧ b.val = 129 ∧ c.val = 159) ∨
  (a.val = 227 ∧ b.val = 128 ∧ c.val = 128)

/-- The test `strings.TrimSpace(s) == ""`: trimming leaves nothing exactly when `s`
decodes (as UTF-8) into white-space code points only. -/
def trimSpaceIsEmpty : GoString → Bool
  | [] => true
  | a :: rest =>
    if asciiSpace a then trimSpaceIsEmpty rest
    else
      match rest with
      | [] => false
      | b :: rest2 =>
        if space2 a b then trimSpaceIsEmpty rest2
        else
          match rest2 with
          | [] => false
          | c :: rest3 => if space3 a b c then trimSpaceIsEmpty rest3 else false

/-! ## `findMinMaxCol` and `parseValues` -/

/-- The inner loop `for idx := range cc` of `findMinMaxCol` over the bytes of one
reference.  (Go ranges over the starts of the UTF-8 sequences of `cc`; the bytes it
skips are continuation bytes, 128 to 191, which the letter test rejects, so the loop
over every byte computes the same.) -/
def findMinMaxColStr : GoString → Int × Int → Int × Int
  | [], mm => mm
  | c :: cs, (min, max) =>
    let ccNum : Int := (c.val : Int)
    if ccNum > 64 ∧ ccNum < 91 then
      if ccNum < min then findMinMaxColStr cs (ccNum, max)
      else if ccNum > max then findMinMaxColStr cs (min, ccNum)
      else findMinMaxColStr cs (min, max)
    else findMinMaxColStr cs (min, max)

/-- `findMinMaxCol(colChars, &min, &max)`: the pair of the final values of `*min`
and `*max`. -/
def findMinMaxCol : List GoString → Int × Int → Int × Int
  | [], mm => mm
  | cc :: ccs, mm => findMinMaxCol ccs (findMinMaxColStr cc mm)

/-- A spreadsheet cell (`interface{}`): a string, or a value of another dynamic type. -/
inductive Cell where
  | str (s : GoString)
  | other
  deriving DecidableEq, Repr

/-- `parseValues(row, fcol, col)` with a bound on the depth of the call stack: a call
that would exceed it is the fatal stack overflow. -/
def parseValuesFuel : Nat → List Cell → Int → GoString → Except Fault GoString
  | 0, _, _, _ => Except.error Fault.stackOverflow
  | fuel + 1, row, fcol, col =>
    match col with
    | [] => Except.ok []
    | [c] =>
      let idx := wrapInt ((c.val : Int) - fcol)
      if idx < (row.length : Int) then
        if idx < 0 then Except.error Fault.indexOutOfRange
        else
          match row[idx.toNat]? with
          | some (Cell.str s) => Except.ok s
          | some Cell.other => Except.error Fault.typeAssertion
          | none => Except.error Fault.indexOutOfRange
      else Except.ok []
    | c :: _ :: rest =>
      match parseValuesFuel fuel row fcol (byteToString c) with
      | Except.error f => Except.error f
      | Except.ok a =>
        match parseValuesFuel fuel row fcol rest with
        | Except.error f => Except.error f
        | Except.ok b => Except.ok (a ++ [32] ++ b)

/-- `parseValues(row, fcol, col)`.  The depth of the recursion is at most
`len(col) + 1` whenever it ends (`parseValuesFuel_stable`), so this is the result
of the source function; `Fault.stackOverflow` is returned exactly when the recursion
does not end. -/
def parseValues (row : List Cell) (fcol : Int) (col : GoString) : Except Fault GoString :=
  parseValuesFuel (col.length + 1) row fcol col

/-! ## The driver: `main` -/

/-- `type shirtSheet struct`: one Google Sheet of shirts. -/
structure shirtSheet where
  ID : GoString
  Seller : GoString
  Contact : GoString
  StartRow : GoString
  ExcludeRows : GoString
  TeamNumCol : GoString
  TeamNameCol : GoString
  SizeCol : GoString
  YearCol : GoString
  DescCol : GoString
  deriving DecidableEq, Repr

/-- The lines `main` prints to standard output, by their format and operands. -/
inductive LogLine where
  /-- `Retrieving data of range %s for %s`. -/
  | retrieving (sheetRange id : GoString)
  /-- `Row %d was marked as excluded. Skipping.` -/
  | rowExcluded (rIdx : Int)
  /-- `Data array for row %d was empty. Skipping.` -/
  | rowEmpty (rIdx : Int)
  /-- `%d listings for seller "%s" written to CSV`. -/
  | sellerListings (n : Int) (seller : GoString)
  /-- `%d total listings written for %d sellers`. -/
  | totalListings (n : Int) (sellers : Int)
  deriving DecidableEq, Repr

/-- What the program has produced so far: the records written to the CSV file, in the
order written (each is flushed at once), and the lines printed. -/
structure Output where
  csv : List (List GoString)
  log : List LogLine
  deriving DecidableEq, Repr

/-- The external collaborator `srv.Spreadsheets.Values.Get(id, range).Do()`: the rows
of the range (`resp.Values`), or `none` for an error. -/
abbrev Fetch := GoString → GoString → Option (List (List Cell))

/-- The three ways the body of the row loop ends for one row. -/
inductive RowStep where
  /-- `continue` after "marked as excluded". -/
  | excluded
  /-- `continue` after "Data array ... was empty". -/
  | empty
  /-- `csv.Write(record)`. -/
  | write (record : List GoString)
  deriving DecidableEq, Repr

/-- The body of `for rIdx, row := range resp.Values` in `main` for one row, up to the
record it writes.  (`rIdx + numericIdx` cannot leave the range of `int`: `rIdx` indexes
a slice in memory and `numericIdx` is at most 9.) -/
def processRow (sheet : shirtSheet) (minColNum : Int) (startRow : Byte) (rIdx : Nat)
    (row : List Cell) : Except Fault RowStep :=
  let numericIdx := (atoi (encodeRune startRow.val)).1
  match isExcluded ((rIdx : Int) + numericIdx) sheet.ExcludeRows with
  | Except.error f => Except.error f
  | Except.ok true => Except.ok RowStep.excluded
  | Except.ok false =>
    match parseValues row minColNum sheet.TeamNumCol with
    | Except.error f => Except.error f
    | Except.ok tNum0 =>
      match parseValues row minColNum sheet.TeamNameCol with
      | Except.error f => Except.error f
      | Except.ok tName0 =>
        match parseValues row minColNum sheet.DescCol with
        | Except.error f => Except.error f
        | Except.ok desc =>
          let combined : Bool := sheet.TeamNumCol = sheet.TeamNameCol ∧ containsByte 45 tNum0
          let tNum := if combined then trimByte 32 (sliceTo tNum0 (indexByte 45 tNum0)) else tNum0
          let tName :=
            if combined then trimByte 32 (sliceFrom tName0 (indexByte 45 tName0 + 1)) else tName0
          if trimSpaceIsEmpty tNum ∧ trimSpaceIsEmpty tName ∧ trimSpaceIsEmpty desc then
            Except.ok RowStep.empty
          else
            match parseValues row minColNum sheet.SizeCol with
            | Except.error f => Except.error f
            | Except.ok size =>
              match parseValues row minColNum sheet.YearCol with
              | Except.error f => Except.error f
              | Except.ok year =>
                Except.ok
                  (RowStep.write [tNum, tName, size, year, desc, sheet.Seller, sheet.Contact])

/-- The loop `for rIdx, row := range resp.Values` of `main` from row `rIdx` on: the
output after it, and the fault when a row aborts the program. -/
def rowLoop (sheet : shirtSheet) (minColNum : Int) (startRow : Byte) :
    Nat → List (List Cell) → Output → Output × Option Fault
  | _, [], out => (out, none)
  | rIdx, row :: rows, out =>
    match processRow sheet minColNum startRow rIdx row with
    | Except.error f => (out, some f)
    | Except.ok RowStep.excluded =>
      rowLoop sheet minColNum startRow (rIdx + 1) rows
        { out with log := out.log ++ [LogLine.rowExcluded rIdx] }
    | Except.ok RowStep.empty =>
      rowLoop sheet minColNum startRow (rIdx + 1) rows
        { out with log := out.log ++ [LogLine.rowEmpty rIdx] }
    | Except.ok (RowStep.write record) =>
      rowLoop sheet minColNum startRow (rIdx + 1) rows
        { out with csv := out.csv ++ [record] }

/-- The start row of a sheet: `byte(49)` unless `sheet.StartRow` is not empty. -/
def startRowOf (sheet : shirtSheet) : Byte :=
  match sheet.StartRow with
  | [] => 49
  | b :: _ => b

/-- The column bounds `(minColNum, maxColNum)` that `main` computes for a sheet. -/
def colBounds (sheet : shirtSheet) : Int × Int :=
  findMinMaxCol
    [sheet.TeamNumCol, sheet.TeamNameCol, sheet.SizeCol, sheet.YearCol, sheet.DescCol]
    (MaxInt, MinInt)

/-- The range `fmt.Sprintf("%c%c:%c", minColNum, startRow, maxColNum)` of a sheet. -/
def sheetRangeOf (sheet : shirtSheet) : GoString :=
  fmtC (colBounds sheet).1 ++ encodeRune (startRowOf sheet).val ++ [58] ++
    fmtC (colBounds sheet).2

/-- The loop `for _, sheet := range sheets` of `main`, with the running value of
`totalListings`: the output and total after it, and the fault when the program aborts.
(The CSV writer is taken never to fail.) -/
def sheetLoop (fetch : Fetch) :
    List shirtSheet → Int → Output → (Output × Int) × Option Fault
  | [], total, out => ((out, total), none)
  | sheet :: sheets, total, out =>
    let out1 : Output :=
      { out with log := out.log ++ [LogLine.retrieving (sheetRangeOf sheet) sheet.ID] }
    match fetch sheet.ID (sheetRangeOf sheet) with
    | none => ((out1, total), some (Fault.cannotRetrieve sheet.ID))
    | some values =>
      match rowLoop sheet (colBounds sheet).1 (startRowOf sheet) 0 values out1 with
      | (out2, some f) => ((out2, total), some f)
      | (out2, none) =>
        sheetLoop fetch sheets (total + (values.length : Int))
          { out2 with
            log := out2.log ++ [LogLine.sellerListings (values.length : Int) sheet.Seller] }

/-- The header record `main` writes first. -/
def csvHeader : List GoString :=
  [bytes "Team Number", bytes "Team Name", bytes "Size", bytes "Year", bytes "Description",
   bytes "Seller", bytes "Contact"]

/-- `main` from the parsed sheets on: the header, the sheets, the closing line. -/
def main (fetch : Fetch) (sheets : List shirtSheet) : Output × Option Fault :=
  match sheetLoop fetch sheets 0 { csv := [csvHeader], log := [] } with
  | ((out, _), some f) => (out, some f)
  | ((out, total), none) =>
    ({ out with log := out.log ++ [LogLine.totalListings total (sheets.length : Int)] }, none)

/-- The data records of a run of `main`: the CSV records after the header. -/
def dataRecords (fetch : Fetch) (sheets : List shirtSheet) : List (List GoString) :=
  (main fetch sheets).1.csv.drop 1

/-- The sheet of the end-to-end scenario: start row unset, row 2 excluded, columns
`A` to `E`. -/
def scenarioSheet (id seller contact : GoString) : shirtSheet :=
  { ID := id, Seller := seller, Contact := contact,
    StartRow := [], ExcludeRows := bytes "2",
    TeamNumCol := bytes "A", TeamNameCol := bytes "B", SizeCol := bytes "C",
    YearCol := bytes "D", DescCol := bytes "E" }

/-- The fetch result of the end-to-end scenario: three rows of text cells whose first
cells are `1`, `118` and `3`; `t1` and `t3` are the other cells of the first and the
third row. -/
def scenarioRows (t1 t3 : List GoString) : List (List Cell) :=
  [(bytes "1" :: t1).map Cell.str,
   [bytes "118", bytes "Robonauts", bytes "AM", bytes "2024", bytes "Shirt"].map Cell.str,
   (bytes "3" :: t3).map Cell.str]

/-- A fetch collaborator for the end-to-end scenario: sheet `S1` has the three rows. -/
def scenarioFetch : Fetch := fun id _ =>
  if id = bytes "S1" then
    some (scenarioRows [bytes "Cheesy Poofs", bytes "L", bytes "2023", bytes "Polo"]
      [bytes "Citrus", bytes "M", bytes "2022", bytes "Tee"])
  else none

/-- A sheet whose team number and team name share column `A`, description in `B`. -/
def combinedSheet : shirtSheet :=
  { ID := bytes "S2", Seller := bytes "seller2", Contact := bytes "contact2",
    StartRow := bytes "2", ExcludeRows := bytes ":2,9:",
    TeamNumCol := bytes "A", TeamNameCol := bytes "A", SizeCol := [],
    YearCol := [], DescCol := bytes "B" }

/-- A fetch collaborator for two sheets: `S1` has the rows of the scenario, `S2` four
rows of which the first is excluded and the third is blank. -/
def twoSheetFetch : Fetch := fun id _ =>
  if id = bytes "S1" then scenarioFetch id []
  else if id = bytes "S2" then
    some [[Cell.str (bytes "header")],
      [Cell.str (bytes "118 - Robonauts"), Cell.str (bytes "Polo")],
      [Cell.str (bytes " "), Cell.str []],
      [Cell.str (bytes "254-The Cheesy Poofs")]]
  else none

/-- A row of text cells. -/
def textRow (cells : List String) : List Cell := cells.map (fun s => Cell.str (bytes s))

/-! ## Specification vocabulary for exclusion specs -/

/-- A decimal digit. -/
def isDigit (c : Byte) : Bool := 48 ≤ c.val ∧ c.val ≤ 57

/-- The value of a sequence of decimal digits. -/
def digitsValue (ds : GoString) : Nat := ds.foldl (fun n c => n * 10 + (c.val - 48)) 0

/-- A term without its sign, if it has one. -/
def unsignedPart : GoString → GoString
  | [] => []
  | c :: cs => if c = 43 ∨ c = 45 then cs else c :: cs

/-- The integer a signed sequence of decimal digits denotes. -/
def decimalValue : GoString → Int
  | [] => 0
  | c :: cs =>
    if c = 45 then -(digitsValue cs : Int)
    else if c = 43 then (digitsValue cs : Int)
    else (digitsValue (c :: cs) : Int)

/-- A decimal integer: an optional sign and at least one decimal digit, denoting a value
of type `int`. -/
def IsDecimalInt (t : GoString) : Prop :=
  unsignedPart t ≠ [] ∧ (unsignedPart t).all isDigit = true ∧
    MinInt ≤ decimalValue t ∧ decimalValue t ≤ MaxInt

instance : DecidablePred IsDecimalInt := fun t => by
  unfold IsDecimalInt; infer_instance

/-- A bound of a range term: empty or a decimal integer. -/
def IsBound (t : GoString) : Prop := t = [] ∨ IsDecimalInt t

/-- A well-formed term of an exclusion spec: empty, a decimal integer, or `lo:hi` with
each of `lo` and `hi` empty or a decimal integer. -/
def WellFormedTerm (t : GoString) : Prop :=
  t = [] ∨ IsDecimalInt t ∨ ∃ lo hi, t = lo ++ 58 :: hi ∧ IsBound lo ∧ IsBound hi

/-- The lower bound a range term gives: an empty one is read as 0. -/
def lowerOf (lo : GoString) : Int := if lo = [] then 0 else decimalValue lo

/-- The upper bound a range term gives: an empty one is read as `MaxInt`. -/
def upperOf (hi : GoString) : Int := if hi = [] then MaxInt else decimalValue hi

/-- A term matches the index `n`: an integer term `v` when `n = v`, a range term `lo:hi`
when `lo ≤ n ≤ hi`. -/
def TermMatches (n : Int) (t : GoString) : Prop :=
  (IsDecimalInt t ∧ n = decimalValue t) ∨
    ∃ lo hi, t = lo ++ 58 :: hi ∧ IsBound lo ∧ IsBound hi ∧ lowerOf lo ≤ n ∧ n ≤ upperOf hi

/-- A range term with a bound that does not parse: `lo:hi`, `lo` the part before the first
colon, where `lo` or `hi` is not empty and `strconv.Atoi` returns an error for it. -/
def BadRangeTerm (t : GoString) : Prop :=
  ∃ lo hi, t = lo ++ 58 :: hi ∧ (58 : Byte) ∉ lo ∧
    ((lo ≠ [] ∧ (atoi lo).2 ≠ none) ∨ (hi ≠ [] ∧ (atoi hi).2 ≠ none))

/-! ## Specification vocabulary for column references -/

/-- The letters of a compound reference: its bytes at the even positions, the bytes
between them being the separators. -/
def lettersOf : GoString → GoString
  | [] => []
  | [c] => [c]
  | c :: _ :: rest => c :: lettersOf rest

/-- The field of each letter in turn, extracted with `parseValues`; the first extraction
that fails ends the scan with its fault. -/
def extractEach (row : List Cell) (fcol : Int) : GoString → Except Fault (List GoString)
  | [] => Except.ok []
  | l :: ls =>
    match parseValues row fcol [l] with
    | Except.error f => Except.error f
    | Except.ok v =>
      match extractEach row fcol ls with
      | Except.error f => Except.error f
      | Except.ok vs => Except.ok (v :: vs)

/-- The values joined in order with single spaces (`strings.Join(vs, " ")`). -/
def joinSpaces : List GoString → GoString
  | [] => []
  | [v] => v
  | v :: w :: vs => v ++ [32] ++ joinSpaces (w :: vs)

/-- The iterative computation of a compound reference: split the reference into its
letters, extract the field of each, join the fields with single spaces. -/
def parseValuesIter (row : List Cell) (fcol : Int) (col : GoString) : Except Fault GoString :=
  match extractEach row fcol (lettersOf col) with
  | Except.error f => Except.error f
  | Except.ok vs => Except.ok (joinSpaces vs)


/-- An uppercase ASCII letter, `A` to `Z`. -/
def isUpper (c : Byte) : Bool := 64 < c.val ∧ c.val < 91

/-- The codes of the uppercase letters occurring in a list of column references, in the
order of occurrence. -/
def upperCodes (refs : List GoString) : List Int :=
  (refs.flatten.filter isUpper).map (fun c => (c.val : Int))

/-- The letter test of `findMinMaxCol` for the code of one uppercase letter: a code below
`min` replaces `min`; only otherwise a code above `max` replaces `max`. -/
def scanStep (mm : Int × Int) (c : Int) : Int × Int :=
  if c < mm.1 then (c, mm.2) else if c > mm.2 then (mm.1, c) else mm

/-- The five column references of a sheet, in the order `main` passes them to
`findMinMaxCol`. -/
def columnRefs (sheet : shirtSheet) : List GoString :=
  [sheet.TeamNumCol, sheet.TeamNameCol, sheet.SizeCol, sheet.YearCol, sheet.DescCol]

/-- A column reference of the expected shape: empty, or of odd length with uppercase
letters at the even positions (a single letter, or letters alternating with single
separator bytes). -/
def ValidRef (ref : GoString) : Prop :=
  ref = [] ∨ (ref.length % 2 = 1 ∧ ∀ l ∈ lettersOf ref, isUpper l = true)

/-! ## Specification vocabulary for the driver -/

/-- The part of a text before its first hyphen (all of it when there is none). -/
def beforeHyphen (s : GoString) : GoString := s.takeWhile (fun b => b ≠ 45)

/-- The part of a text after its first hyphen (nothing when there is none). -/
def afterHyphen (s : GoString) : GoString := (s.dropWhile (fun b => b ≠ 45)).drop 1

/-- The index under which the row at offset `k` of a sheet is tested against the
exclusion spec. -/
def rowIndex (sheet : shirtSheet) (k : Nat) : Int :=
  (k : Int) + (atoi (encodeRune (startRowOf sheet).val)).1

/-- The row at offset `k` is excluded by the exclusion spec of the sheet. -/
def rowIsExcluded (sheet : shirtSheet) (k : Nat) : Bool :=
  decide (isExcluded (rowIndex sheet k) sheet.ExcludeRows = Except.ok true)

/-- The value of a column reference in a row, relative to the first fetched column of the
sheet; empty where the extraction has no value. -/
def fieldOf (sheet : shirtSheet) (row : List Cell) (col : GoString) : GoString :=
  match parseValues row (colBounds sheet).1 col with
  | Except.ok v => v
  | Except.error _ => []

/-- The record (teamNum, teamName, size, year, desc, seller, contact) of a row, team
number and team name taken from around the first hyphen when both come from the same
reference and its text has a hyphen. -/
def recordOf (sheet : shirtSheet) (row : List Cell) : List GoString :=
  let tNum := fieldOf sheet row sheet.TeamNumCol
  let tName := fieldOf sheet row sheet.TeamNameCol
  [if sheet.TeamNumCol = sheet.TeamNameCol ∧ (45 : Byte) ∈ tNum then trimByte 32 (beforeHyphen tNum)
    else tNum,
   if sheet.TeamNumCol = sheet.TeamNameCol ∧ (45 : Byte) ∈ tNum then trimByte 32 (afterHyphen tName)
    else tName,
   fieldOf sheet row sheet.SizeCol, fieldOf sheet row sheet.YearCol,
   fieldOf sheet row sheet.DescCol, sheet.Seller, sheet.Contact]

/-- A record is blank: team number, team name and description are white space only. -/
def isBlankRecord : List GoString → Bool
  | [tNum, tName, _, _, desc, _, _] =>
    trimSpaceIsEmpty tNum && trimSpaceIsEmpty tName && trimSpaceIsEmpty desc
  | _ => false

/-- What the row at offset `p.1` contributes to the output: its record if the row is
neither excluded nor blank, and nothing otherwise. -/
def expectedOne (sheet : shirtSheet) (p : Nat × List Cell) : Option (List GoString) :=
  if rowIsExcluded sheet p.1 = true ∨ isBlankRecord (recordOf sheet p.2) = true then none
  else some (recordOf sheet p.2)

/-- The records of the rows of one sheet, in the original order of the rows. -/
def expectedRecords (sheet : shirtSheet) (rows : List (List Cell)) : List (List GoString) :=
  rows.enum.filterMap (expectedOne sheet)

/-- The records of a run: those of each sheet in configuration order (a sheet whose
fetch fails has no rows). -/
def expectedAll (fetch : Fetch) (sheets : List shirtSheet) : List (List GoString) :=
  sheets.flatMap (fun sheet =>
    expectedRecords sheet ((fetch sheet.ID (sheetRangeOf sheet)).getD []))

/-- The numeric value of the start-row digit character of a sheet; 1 when the start row
is unspecified. -/
def startDigitValue (sheet : shirtSheet) : Int :=
  match sheet.StartRow with
  | [] => 1
  | c :: _ => (c.val : Int) - 48

/-- The record a step of the row loop writes, if any. -/
def stepRecord : RowStep → Option (List GoString)
  | RowStep.write r => some r
  | _ => none

/-! ## Lemmas on the library functions -/

theorem indexByte_ge (sep : Byte) (s : GoString) : -1 ≤ indexByte sep s := by
  induction s with
  | nil => simp [indexByte]
  | cons c cs ih =>
    simp only [indexByte]
    split
    · omega
    · split <;> omega

theorem indexByte_nonneg_iff (sep : Byte) (s : GoString) : 0 ≤ indexByte sep s ↔ sep ∈ s := by
  induction s with
  | nil => simp [indexByte]
  | cons c cs ih =>
    simp only [indexByte, List.mem_cons]
    by_cases h : c = sep
    · simp [h]
    · have h2 : ¬ sep = c := fun e => h e.symm
      simp only [h, if_false, h2, false_or]
      rw [← ih]
      have := indexByte_ge sep cs
      split <;> omega

theorem containsByte_iff (sep : Byte) (s : GoString) : containsByte sep s = true ↔ sep ∈ s := by
  simp [containsByte, indexByte_nonneg_iff]

theorem indexByte_append (sep : Byte) (lo hi : GoString) (h : sep ∉ lo) :
    indexByte sep (lo ++ sep :: hi) = (lo.length : Int) := by
  induction lo with
  | nil => simp [indexByte]
  | cons c cs ih =>
    simp only [List.mem_cons, not_or] at h
    have h2 : ¬ c = sep := fun e => h.1 e.symm
    have ih2 := ih h.2
    show indexByte sep (c :: (cs ++ sep :: hi)) = _
    simp only [indexByte, h2, if_false, List.length_cons]
    rw [ih2]
    split
    · omega
    · push_cast; ring

theorem digitsValue_foldl_ge (cs : GoString) (n : Nat) :
    n ≤ cs.foldl (fun n c => n * 10 + (c.val - 48)) n := by
  induction cs generalizing n with
  | nil => simp
  | cons c cs ih =>
    simp only [List.foldl_cons]
    have := ih (n * 10 + (c.val - 48))
    omega

theorem parseUintLoop_digits (cs : GoString) (n : Nat) (hd : cs.all isDigit = true)
    (hv : cs.foldl (fun n c => n * 10 + (c.val - 48)) n ≤ 2 ^ 64 - 1) :
    parseUintLoop cs n = (cs.foldl (fun n c => n * 10 + (c.val - 48)) n, none) := by
  induction cs generalizing n with
  | nil => simp [parseUintLoop]
  | cons c cs ih =>
    simp only [List.all_cons, Bool.and_eq_true] at hd
    simp only [List.foldl_cons] at hv ⊢
    have hge := digitsValue_foldl_ge cs (n * 10 + (c.val - 48))
    have hc : 48 ≤ c.val ∧ c.val ≤ 57 := by simpa [isDigit] using hd.1
    have h1 : ¬ n ≥ (2 ^ 64 - 1) / 10 + 1 := by omega
    have h2 : ¬ n * 10 + (c.val - 48) > 2 ^ 64 - 1 := by omega
    simp only [parseUintLoop, hc, and_self, if_true, h1, if_false, h2]
    exact ih _ hd.2 hv

theorem parseUint_digits (s : GoString) (hne : s ≠ []) (hd : s.all isDigit = true)
    (hv : digitsValue s ≤ 2 ^ 64 - 1) : parseUint s = (digitsValue s, none) := by
  simp only [parseUint, hne, if_false]
  exact parseUintLoop_digits s 0 hd hv


theorem atoi_decimal (t : GoString) (h : IsDecimalInt t) : atoi t = (decimalValue t, none) := by
  obtain ⟨hne, hd, hlo, hhi⟩ := h
  cases t with
  | nil => simp [unsignedPart] at hne
  | cons c cs =>
    simp only [MinInt, MaxInt] at hlo hhi
    by_cases h45 : c = 45
    · subst h45
      simp only [unsignedPart, decimalValue] at hne hd hlo hhi
      simp at hne hd hlo hhi
      have hp := parseUint_digits cs hne (by simpa using hd) (by omega)
      simp only [atoi]
      simp [hp, decimalValue]
      omega
    · by_cases h43 : c = 43
      · subst h43
        simp only [unsignedPart, decimalValue] at hne hd hlo hhi
        simp at hne hd hlo hhi
        have hp := parseUint_digits cs hne (by simpa using hd) (by omega)
        simp only [atoi]
        simp [hp, decimalValue]
        omega
      · simp only [unsignedPart, decimalValue, h45, h43, or_self, if_false] at hne hd hlo hhi
        have hp := parseUint_digits (c :: cs) hne hd (by omega)
        simp only [atoi]
        simp [hp, decimalValue, h45, h43]
        omega

theorem not_mem_of_all_isDigit (s : GoString) (hd : s.all isDigit = true) : (58 : Byte) ∉ s := by
  intro hmem
  have h58 : isDigit 58 = true := (List.all_eq_true.mp hd) 58 hmem
  exact absurd h58 (by decide)

theorem decimal_no_colon (t : GoString) (h : IsDecimalInt t) : (58 : Byte) ∉ t := by
  obtain ⟨_, hd, _, _⟩ := h
  cases t with
  | nil => simp
  | cons c cs =>
    by_cases hs : c = 43 ∨ c = 45
    · simp only [unsignedPart, hs, if_true] at hd
      have := not_mem_of_all_isDigit cs hd
      rcases hs with hs | hs <;> subst hs <;> simpa using this
    · simp only [unsignedPart, hs, if_false] at hd
      exact not_mem_of_all_isDigit _ hd

theorem bound_no_colon (t : GoString) (h : IsBound t) : (58 : Byte) ∉ t := by
  rcases h with h | h
  · subst h; simp
  · exact decimal_no_colon t h

theorem range_term_unique (lo hi lo2 hi2 : GoString) (h1 : (58 : Byte) ∉ lo)
    (h2 : (58 : Byte) ∉ lo2) (e : lo ++ 58 :: hi = lo2 ++ 58 :: hi2) : lo = lo2 ∧ hi = hi2 := by
  have a := indexByte_append 58 lo hi h1
  have b := indexByte_append 58 lo2 hi2 h2
  rw [e, b] at a
  have hl : lo.length = lo2.length := by omega
  have := List.append_inj e hl
  exact ⟨this.1, by simpa using this.2⟩

theorem isExcludedLoop_empty (n : Int) (ts : List GoString) :
    isExcludedLoop n ([] :: ts) = isExcludedLoop n ts := by
  simp [isExcludedLoop, containsByte, indexByte]

theorem isExcludedLoop_decimal (n : Int) (t : GoString) (ts : List GoString)
    (h : IsDecimalInt t) :
    isExcludedLoop n (t :: ts) =
      if n = decimalValue t then Except.ok true else isExcludedLoop n ts := by
  have hc : containsByte 58 t = false := by
    have := decimal_no_colon t h
    cases hb : containsByte 58 t
    · rfl
    · exact absurd ((containsByte_iff 58 t).mp hb) this
  have hl : t.length ≠ 0 := by
    intro h0
    have : t = [] := List.length_eq_zero.mp h0
    subst this
    exact h.1 rfl
  simp only [isExcludedLoop, hc, Bool.false_eq_true, if_false, hl, ne_eq, not_false_eq_true,
    if_true, atoi_decimal t h, handleErr]

theorem isExcludedLoop_range (n : Int) (lo hi : GoString) (ts : List GoString)
    (hlo : IsBound lo) (hhi : IsBound hi) :
    isExcludedLoop n ((lo ++ 58 :: hi) :: ts) =
      if lowerOf lo ≤ n ∧ n ≤ upperOf hi then Except.ok true else isExcludedLoop n ts := by
  have hc : containsByte 58 (lo ++ 58 :: hi) = true := (containsByte_iff _ _).mpr (by simp)
  have hi1 := indexByte_append 58 lo hi (bound_no_colon lo hlo)
  have e1 : sliceTo (lo ++ 58 :: hi) (lo.length : Int) = lo := by simp [sliceTo]
  have e2 : sliceFrom (lo ++ 58 :: hi) ((lo.length : Int) + 1) = hi := by
    have : ((lo.length : Int) + 1).toNat = lo.length + 1 := by omega
    simp [sliceFrom, this]
  have a1 : (if lo.length = 0 then (Except.ok 0 : Except Fault Int)
      else
        match handleErr (atoi lo).2 true Fault.couldNotConvert with
        | Except.error f => Except.error f
        | Except.ok _ => Except.ok (atoi lo).1) = Except.ok (lowerOf lo) := by
    rcases hlo with h | h
    · subst h; simp [lowerOf]
    · have hne : lo ≠ [] := by
        intro h0; subst h0; exact h.1 rfl
      have hl : lo.length ≠ 0 := fun h0 => hne (List.length_eq_zero.mp h0)
      simp [hl, atoi_decimal lo h, handleErr, lowerOf, hne]
  have a2 : (if hi.length = 0 then (Except.ok MaxInt : Except Fault Int)
      else
        match handleErr (atoi hi).2 true Fault.couldNotConvert with
        | Except.error f => Except.error f
        | Except.ok _ => Except.ok (atoi hi).1) = Except.ok (upperOf hi) := by
    rcases hhi with h | h
    · subst h; simp [upperOf]
    · have hne : hi ≠ [] := by
        intro h0; subst h0; exact h.1 rfl
      have hl : hi.length ≠ 0 := fun h0 => hne (List.length_eq_zero.mp h0)
      simp [hl, atoi_decimal hi h, handleErr, upperOf, hne]
  simp only [isExcludedLoop, hc, if_true, hi1, e1, e2, a1, a2, ge_iff_le]

theorem termMatches_nil (n : Int) : ¬ TermMatches n [] := by
  rintro (⟨h, _⟩ | ⟨lo, hi, e, _⟩)
  · exact h.1 rfl
  · cases lo <;> simp at e

theorem termMatches_decimal (n : Int) (t : GoString) (h : IsDecimalInt t) :
    TermMatches n t ↔ n = decimalValue t := by
  constructor
  · rintro (⟨_, e⟩ | ⟨lo, hi, e, _⟩)
    · exact e
    · exact absurd (by rw [e]; simp) (decimal_no_colon t h)
  · intro e
    exact Or.inl ⟨h, e⟩

theorem termMatches_range (n : Int) (lo hi : GoString) (hlo : IsBound lo) (hhi : IsBound hi) :
    TermMatches n (lo ++ 58 :: hi) ↔ lowerOf lo ≤ n ∧ n ≤ upperOf hi := by
  constructor
  · rintro (⟨h, _⟩ | ⟨lo2, hi2, e, hlo2, _, hr⟩)
    · exact absurd (by simp) (decimal_no_colon _ h)
    · obtain ⟨e1, e2⟩ := range_term_unique lo hi lo2 hi2 (bound_no_colon lo hlo)
        (bound_no_colon lo2 hlo2) e
      subst e1; subst e2
      exact hr
  · intro hr
    exact Or.inr ⟨lo, hi, rfl, hlo, hhi, hr.1, hr.2⟩

theorem isExcludedLoop_step (n : Int) (t : GoString) (ts : List GoString)
    (h : WellFormedTerm t) :
    (TermMatches n t ∧ isExcludedLoop n (t :: ts) = Except.ok true) ∨
      (¬ TermMatches n t ∧ isExcludedLoop n (t :: ts) = isExcludedLoop n ts) := by
  rcases h with h | h | ⟨lo, hi, e, hlo, hhi⟩
  · subst h
    exact Or.inr ⟨termMatches_nil n, isExcludedLoop_empty n ts⟩
  · rw [isExcludedLoop_decimal n t ts h, termMatches_decimal n t h]
    by_cases hn : n = decimalValue t
    · exact Or.inl ⟨hn, by simp [hn]⟩
    · exact Or.inr ⟨hn, by simp [hn]⟩
  · subst e
    rw [isExcludedLoop_range n lo hi ts hlo hhi, termMatches_range n lo hi hlo hhi]
    by_cases hn : lowerOf lo ≤ n ∧ n ≤ upperOf hi
    · exact Or.inl ⟨hn, by simp [hn]⟩
    · exact Or.inr ⟨hn, by simp [hn]⟩

theorem isExcludedLoop_spec (n : Int) (terms : List GoString)
    (h : ∀ t ∈ terms, WellFormedTerm t) :
    ((∃ t ∈ terms, TermMatches n t) ∧ isExcludedLoop n terms = Except.ok true) ∨
      ((¬ ∃ t ∈ terms, TermMatches n t) ∧ isExcludedLoop n terms = Except.ok false) := by
  induction terms with
  | nil => exact Or.inr ⟨by simp, by simp [isExcludedLoop]⟩
  | cons t ts ih =>
    have ht := h t (List.mem_cons_self t ts)
    have hts : ∀ u ∈ ts, WellFormedTerm u := fun u hu => h u (List.mem_cons_of_mem t hu)
    rcases isExcludedLoop_step n t ts ht with ⟨hm, e⟩ | ⟨hm, e⟩
    · exact Or.inl ⟨⟨t, List.mem_cons_self t ts, hm⟩, e⟩
    · rw [e]
      rcases ih hts with ⟨⟨u, hu, hum⟩, e2⟩ | ⟨hno, e2⟩
      · exact Or.inl ⟨⟨u, List.mem_cons_of_mem t hu, hum⟩, e2⟩
      · refine Or.inr ⟨?_, e2⟩
        rintro ⟨u, hu, hum⟩
        rcases List.mem_cons.mp hu with hu | hu
        · subst hu; exact hm hum
        · exact hno ⟨u, hu, hum⟩

/-! ## Lemmas on `findMinMaxCol` -/

theorem findMinMaxColStr_fst (cs : GoString) (mn mx : Int) :
    (findMinMaxColStr cs (mn, mx)).1 =
      ((cs.filter isUpper).map (fun c => (c.val : Int))).foldl min mn := by
  induction cs generalizing mn mx with
  | nil => simp [findMinMaxColStr]
  | cons c cs ih =>
    by_cases hu : isUpper c = true
    · have hc : (c.val : Int) > 64 ∧ (c.val : Int) < 91 := by
        simp only [isUpper, decide_eq_true_eq] at hu
        omega
      simp only [findMinMaxColStr, hc, and_self, if_true, List.filter_cons, hu, List.map_cons,
        List.foldl_cons]
      by_cases h1 : (c.val : Int) < mn
      · simp only [h1, if_true, ih]
        rw [min_eq_right (le_of_lt h1)]
      · simp only [h1, if_false]
        have hmin : min mn (c.val : Int) = mn := min_eq_left (by omega)
        rw [hmin]
        split <;> exact ih _ _
    · have hc : ¬ ((c.val : Int) > 64 ∧ (c.val : Int) < 91) := by
        simp only [isUpper, decide_eq_true_eq] at hu
        omega
      simp only [findMinMaxColStr, hc, if_false, List.filter_cons, hu, Bool.false_eq_true]
      exact ih _ _

theorem findMinMaxCol_fst (refs : List GoString) (mm : Int × Int) :
    (findMinMaxCol refs mm).1 = (upperCodes refs).foldl min mm.1 := by
  induction refs generalizing mm with
  | nil => simp [findMinMaxCol, upperCodes]
  | cons cc ccs ih =>
    obtain ⟨mn, mx⟩ := mm
    simp only [findMinMaxCol]
    rw [ih, findMinMaxColStr_fst]
    simp [upperCodes, List.foldl_append]

theorem foldl_min_le (l : List Int) (a : Int) :
    l.foldl min a ≤ a ∧ ∀ c ∈ l, l.foldl min a ≤ c := by
  induction l generalizing a with
  | nil => simp
  | cons x xs ih =>
    simp only [List.foldl_cons, List.mem_cons]
    have h := ih (min a x)
    refine ⟨le_trans h.1 (min_le_left a x), ?_⟩
    intro c hc
    rcases hc with hc | hc
    · subst hc; exact le_trans h.1 (min_le_right a c)
    · exact h.2 c hc

theorem foldl_min_mem (l : List Int) (a : Int) : l.foldl min a = a ∨ l.foldl min a ∈ l := by
  induction l generalizing a with
  | nil => simp
  | cons x xs ih =>
    simp only [List.foldl_cons, List.mem_cons]
    rcases ih (min a x) with h | h
    · rcases min_choice a x with h2 | h2
      · left; rw [h, h2]
      · right; left; rw [h, h2]
    · right; right; exact h

theorem upperCodes_lt (refs : List GoString) : ∀ c ∈ upperCodes refs, 64 < c ∧ c < 91 := by
  intro c hc
  simp only [upperCodes, List.mem_map, List.mem_filter] at hc
  obtain ⟨b, ⟨_, hb⟩, rfl⟩ := hc
  simp only [isUpper, decide_eq_true_eq] at hb
  omega

/-! ## Lemmas on `parseValues` -/

theorem byteToString_ascii (c : Byte) (h : c.val < 128) : byteToString c = [c] := by
  have e : (Fin.ofNat c.val : Byte) = c := Fin.ext (Nat.mod_eq_of_lt c.isLt)
  simp only [byteToString, encodeRune, h, if_true, e]

theorem parseValuesFuel_succ_compound (row : List Cell) (fcol : Int) (c s : Byte)
    (rest : GoString) (fuel : Nat) :
    parseValuesFuel (fuel + 1) row fcol (c :: s :: rest) =
      match parseValuesFuel fuel row fcol (byteToString c) with
      | Except.error f => Except.error f
      | Except.ok a =>
        match parseValuesFuel fuel row fcol rest with
        | Except.error f => Except.error f
        | Except.ok b => Except.ok (a ++ [32] ++ b) := by
  rw [parseValuesFuel]

theorem byteToString_high (c : Byte) (h : 128 ≤ c.val) :
    ∃ a b : Byte, byteToString c = [a, b] ∧ 128 ≤ a.val := by
  refine ⟨Fin.ofNat (192 + c.val / 64), Fin.ofNat (128 + c.val % 64), ?_, ?_⟩
  · have h1 : ¬ c.val < 128 := by omega
    have h2 : c.val < 2048 := by omega
    simp [byteToString, encodeRune, h1, h2]
  · have : c.val < 256 := c.isLt
    simp only [Fin.ofNat, Fin.val_mk]
    omega

theorem parseValuesFuel_diverges (row : List Cell) (fcol : Int) (fuel : Nat) :
    ∀ a b : Byte, 128 ≤ a.val →
      parseValuesFuel fuel row fcol [a, b] = Except.error Fault.stackOverflow := by
  induction fuel with
  | zero => intro a b _; rfl
  | succ n ih =>
    intro a b ha
    obtain ⟨a2, b2, e, ha2⟩ := byteToString_high a ha
    simp only [parseValuesFuel, e, ih a2 b2 ha2]

theorem parseValuesFuel_single (row : List Cell) (fcol : Int) (c : Byte) (fuel : Nat) :
    parseValuesFuel (fuel + 1) row fcol [c] = parseValues row fcol [c] := by
  simp only [parseValues, parseValuesFuel, List.length_singleton]

theorem parseValuesFuel_high (row : List Cell) (fcol : Int) (c s : Byte) (rest : GoString)
    (fuel : Nat) (h : 128 ≤ c.val) :
    parseValuesFuel fuel row fcol (c :: s :: rest) = Except.error Fault.stackOverflow := by
  cases fuel with
  | zero => rfl
  | succ n =>
    obtain ⟨a2, b2, e, ha2⟩ := byteToString_high c h
    simp only [parseValuesFuel, e, parseValuesFuel_diverges row fcol n a2 b2 ha2]

theorem parseValuesFuel_stable (row : List Cell) (fcol : Int) :
    ∀ (col : GoString) (fuel : Nat), col.length + 1 ≤ fuel →
      parseValuesFuel fuel row fcol col = parseValues row fcol col
  | [], fuel, h => by
    obtain ⟨n, rfl⟩ : ∃ n, fuel = n + 1 := ⟨fuel - 1, by omega⟩
    simp only [parseValues, parseValuesFuel]
  | [c], fuel, h => by
    obtain ⟨n, rfl⟩ : ∃ n, fuel = n + 1 := ⟨fuel - 1, by omega⟩
    exact parseValuesFuel_single row fcol c n
  | c :: s :: rest, fuel, h => by
    by_cases hc : 128 ≤ c.val
    · rw [parseValuesFuel_high row fcol c s rest fuel hc, parseValues,
        parseValuesFuel_high row fcol c s rest _ hc]
    · simp only [List.length_cons] at h
      obtain ⟨n, rfl⟩ : ∃ n, fuel = n + 2 := ⟨fuel - 2, by omega⟩
      have e := byteToString_ascii c (by omega)
      have r1 := parseValuesFuel_stable row fcol rest (n + 1) (by omega)
      have r2 := parseValuesFuel_stable row fcol rest (rest.length + 1 + 1) (by omega)
      simp only [parseValues, parseValuesFuel, e, List.length_cons] at r1 r2 ⊢
      rw [r1, r2]

theorem parseValues_nil (row : List Cell) (fcol : Int) :
    parseValues row fcol [] = Except.ok [] := by
  simp only [parseValues, parseValuesFuel, List.length_nil]

theorem parseValues_compound (row : List Cell) (fcol : Int) (c s : Byte) (rest : GoString)
    (hc : c.val < 128) :
    parseValues row fcol (c :: s :: rest) =
      match parseValues row fcol [c] with
      | Except.error f => Except.error f
      | Except.ok a =>
        match parseValues row fcol rest with
        | Except.error f => Except.error f
        | Except.ok b => Except.ok (a ++ [32] ++ b) := by
  have e := byteToString_ascii c hc
  have r1 := parseValuesFuel_single row fcol c (rest.length + 1)
  have r2 := parseValuesFuel_stable row fcol rest (rest.length + 2) (by omega)
  rw [parseValues, List.length_cons, List.length_cons, parseValuesFuel_succ_compound, e, r1, r2]

theorem wrapInt_of_small (x : Int) (h0 : 0 ≤ x) (h1 : x ≤ MaxInt) : wrapInt x = x := by
  simp only [MaxInt] at h1
  simp only [wrapInt]
  omega

theorem extractEach_length (row : List Cell) (fcol : Int) :
    ∀ (ls : GoString) (vs : List GoString),
      extractEach row fcol ls = Except.ok vs → vs.length = ls.length
  | [], vs, h => by
    simp only [extractEach, Except.ok.injEq] at h
    subst h; rfl
  | l :: ls, vs, h => by
    simp only [extractEach] at h
    cases h1 : parseValues row fcol [l] with
    | error f => simp [h1] at h
    | ok v =>
      cases h2 : extractEach row fcol ls with
      | error f => simp [h1, h2] at h
      | ok ws =>
        simp only [h1, h2, Except.ok.injEq] at h
        subst h
        simp [extractEach_length row fcol ls ws h2]

theorem lettersOf_ne_nil : ∀ (col : GoString), col ≠ [] → lettersOf col ≠ []
  | [], h => absurd rfl h
  | [c], _ => by simp [lettersOf]
  | c :: _ :: rest, _ => by simp [lettersOf]

theorem lettersOf_length :
    ∀ (s : GoString), s.length % 2 = 1 → 2 * (lettersOf s).length = s.length + 1
  | [], h => by simp at h
  | [c], _ => by simp [lettersOf]
  | c :: d :: rest, h => by
    have hr : rest.length % 2 = 1 := by
      simp only [List.length_cons] at h
      omega
    have := lettersOf_length rest hr
    simp only [lettersOf, List.length_cons]
    omega

theorem parseValues_eq_iter (row : List Cell) (fcol : Int) :
    ∀ (col : GoString), col.length % 2 = 1 → (∀ l ∈ lettersOf col, l.val < 128) →
      parseValues row fcol col = parseValuesIter row fcol col
  | [], h, _ => by simp at h
  | [c], _, _ => by
    simp only [parseValuesIter, lettersOf, extractEach]
    cases parseValues row fcol [c] <;> simp [joinSpaces]
  | c :: s :: rest, h, hl => by
    have hrest : rest.length % 2 = 1 := by
      simp only [List.length_cons] at h
      omega
    have hne : rest ≠ [] := by
      intro e; subst e; simp at hrest
    have hc : c.val < 128 := hl c (by simp [lettersOf])
    have ih := parseValues_eq_iter row fcol rest hrest
      (fun l hm => hl l (by simp [lettersOf, hm]))
    rw [parseValues_compound row fcol c s rest hc, ih]
    simp only [parseValuesIter, lettersOf, extractEach]
    cases parseValues row fcol [c] with
    | error f => rfl
    | ok a =>
      cases h2 : extractEach row fcol (lettersOf rest) with
      | error f => rfl
      | ok vs =>
        have hlen := extractEach_length row fcol _ vs h2
        cases vs with
        | nil =>
          exfalso
          have := lettersOf_ne_nil rest hne
          exact this (List.length_eq_zero.mp hlen.symm)
        | cons w ws => simp [joinSpaces]

theorem parseValues_text_single (cells : List GoString) (f : Int) (c : Byte)
    (h0 : 0 ≤ (c.val : Int) - f) (h1 : (c.val : Int) - f ≤ MaxInt) :
    parseValues (cells.map Cell.str) f [c] =
      Except.ok (cells[((c.val : Int) - f).toNat]?.getD []) := by
  have hw : wrapInt ((c.val : Int) - f) = (c.val : Int) - f := wrapInt_of_small _ h0 h1
  have h2 : ¬ (c.val : Int) - f < 0 := by omega
  simp only [parseValues, parseValuesFuel, hw, List.length_map, List.length_singleton]
  by_cases hlt : (c.val : Int) - f < (cells.length : Int)
  · have hl : ((c.val : Int) - f).toNat < cells.length := by omega
    simp only [hlt, if_true, h2, if_false, List.getElem?_map, List.getElem?_eq_getElem hl,
      Option.map_some', Option.getD_some]
  · have hl : cells.length ≤ ((c.val : Int) - f).toNat := by omega
    simp only [hlt, if_false, List.getElem?_eq_none hl, Option.getD_none]

/-! ## Lemmas on the driver -/

theorem sliceTo_indexByte (sep : Byte) (s : GoString) (h : sep ∈ s) :
    sliceTo s (indexByte sep s) = s.takeWhile (fun b => b ≠ sep) := by
  induction s with
  | nil => simp at h
  | cons c cs ih =>
    by_cases hc : c = sep
    · simp [sliceTo, indexByte, hc]
    · have hm : sep ∈ cs := by
        rcases List.mem_cons.mp h with e | e
        · exact absurd e.symm hc
        · exact e
      have hi := (indexByte_nonneg_iff sep cs).mpr hm
      have h2 : ¬ indexByte sep cs < 0 := by omega
      have h3 : (indexByte sep cs + 1).toNat = (indexByte sep cs).toNat + 1 := by omega
      have ih2 := ih hm
      simp only [sliceTo] at ih2
      simp only [sliceTo, indexByte, hc, if_false, h2, h3, List.take_succ_cons, ih2,
        List.takeWhile_cons, ne_eq, not_false_eq_true, decide_True, if_true]

theorem sliceFrom_indexByte (sep : Byte) (s : GoString) (h : sep ∈ s) :
    sliceFrom s (indexByte sep s + 1) = (s.dropWhile (fun b => b ≠ sep)).drop 1 := by
  induction s with
  | nil => simp at h
  | cons c cs ih =>
    by_cases hc : c = sep
    · simp [sliceFrom, indexByte, hc]
    · have hm : sep ∈ cs := by
        rcases List.mem_cons.mp h with e | e
        · exact absurd e.symm hc
        · exact e
      have hi := (indexByte_nonneg_iff sep cs).mpr hm
      have h2 : ¬ indexByte sep cs < 0 := by omega
      have h3 : (indexByte sep cs + 1 + 1).toNat = (indexByte sep cs + 1).toNat + 1 := by omega
      have ih2 := ih hm
      simp only [sliceFrom] at ih2
      simp only [sliceFrom, indexByte, hc, if_false, h2, h3, List.drop_succ_cons, ih2,
        List.dropWhile_cons, ne_eq, not_false_eq_true, decide_True, if_true]

theorem isBlankRecord_seven (a b c d e f g : GoString) :
    isBlankRecord [a, b, c, d, e, f, g] =
      (trimSpaceIsEmpty a && trimSpaceIsEmpty b && trimSpaceIsEmpty e) := rfl

theorem processRow_spec (sheet : shirtSheet) (k : Nat) (row : List Cell) (step : RowStep)
    (h : processRow sheet (colBounds sheet).1 (startRowOf sheet) k row = Except.ok step) :
    stepRecord step = expectedOne sheet (k, row) := by
  unfold processRow at h
  cases hx : isExcluded ((k : Int) + (atoi (encodeRune (startRowOf sheet).val)).1)
      sheet.ExcludeRows with
  | error f => simp [hx] at h
  | ok b =>
    cases b with
    | true =>
      simp only [hx, Except.ok.injEq] at h
      subst h
      simp [stepRecord, expectedOne, rowIsExcluded, rowIndex, hx]
    | false =>
      have hex : rowIsExcluded sheet k = false := by
        simp [rowIsExcluded, rowIndex, hx]
      cases h1 : parseValues row (colBounds sheet).1 sheet.TeamNumCol with
      | error f => simp [hx, h1] at h
      | ok tNum0 =>
        cases h2 : parseValues row (colBounds sheet).1 sheet.TeamNameCol with
        | error f => simp [hx, h1, h2] at h
        | ok tName0 =>
          cases h3 : parseValues row (colBounds sheet).1 sheet.DescCol with
          | error f => simp [hx, h1, h2, h3] at h
          | ok desc =>
            simp only [hx, h1, h2, h3] at h
            have f1 : fieldOf sheet row sheet.TeamNumCol = tNum0 := by simp [fieldOf, h1]
            have f2 : fieldOf sheet row sheet.TeamNameCol = tName0 := by simp [fieldOf, h2]
            have f3 : fieldOf sheet row sheet.DescCol = desc := by simp [fieldOf, h3]
            have hcond : (decide (sheet.TeamNumCol = sheet.TeamNameCol ∧
                containsByte 45 tNum0 = true) = true) ↔
                (sheet.TeamNumCol = sheet.TeamNameCol ∧ (45 : Byte) ∈ tNum0) := by
              simp [containsByte_iff]
            have e1 : (if decide (sheet.TeamNumCol = sheet.TeamNameCol ∧
                  containsByte 45 tNum0 = true) = true
                then trimByte 32 (sliceTo tNum0 (indexByte 45 tNum0)) else tNum0) =
                (if sheet.TeamNumCol = sheet.TeamNameCol ∧ (45 : Byte) ∈ tNum0
                  then trimByte 32 (beforeHyphen tNum0) else tNum0) := by
              by_cases hA : sheet.TeamNumCol = sheet.TeamNameCol ∧ (45 : Byte) ∈ tNum0
              · rw [if_pos (hcond.mpr hA), if_pos hA, sliceTo_indexByte 45 tNum0 hA.2]
                rfl
              · rw [if_neg (fun hh => hA (hcond.mp hh)), if_neg hA]
            have e2 : (if decide (sheet.TeamNumCol = sheet.TeamNameCol ∧
                  containsByte 45 tNum0 = true) = true
                then trimByte 32 (sliceFrom tName0 (indexByte 45 tName0 + 1)) else tName0) =
                (if sheet.TeamNumCol = sheet.TeamNameCol ∧ (45 : Byte) ∈ tNum0
                  then trimByte 32 (afterHyphen tName0) else tName0) := by
              by_cases hA : sheet.TeamNumCol = sheet.TeamNameCol ∧ (45 : Byte) ∈ tNum0
              · have hsame : tName0 = tNum0 := by
                  rw [hA.1, h2] at h1
                  exact Except.ok.inj h1
                rw [if_pos (hcond.mpr hA), if_pos hA, hsame, sliceFrom_indexByte 45 tNum0 hA.2]
                rfl
              · rw [if_neg (fun hh => hA (hcond.mp hh)), if_neg hA]
            rw [e1, e2] at h
            have hrec : ∀ size year : GoString,
                fieldOf sheet row sheet.SizeCol = size → fieldOf sheet row sheet.YearCol = year →
                recordOf sheet row =
                  [if sheet.TeamNumCol = sheet.TeamNameCol ∧ (45 : Byte) ∈ tNum0
                      then trimByte 32 (beforeHyphen tNum0) else tNum0,
                    if sheet.TeamNumCol = sheet.TeamNameCol ∧ (45 : Byte) ∈ tNum0
                      then trimByte 32 (afterHyphen tName0) else tName0,
                    size, year, desc, sheet.Seller, sheet.Contact] := by
              intro size year hs hy
              simp only [recordOf, f1, f2, f3, hs, hy]
            generalize (if sheet.TeamNumCol = sheet.TeamNameCol ∧ (45 : Byte) ∈ tNum0
                then trimByte 32 (beforeHyphen tNum0) else tNum0) = tn at h hrec
            generalize (if sheet.TeamNumCol = sheet.TeamNameCol ∧ (45 : Byte) ∈ tNum0
                then trimByte 32 (afterHyphen tName0) else tName0) = tm at h hrec
            by_cases hb : trimSpaceIsEmpty tn = true ∧ trimSpaceIsEmpty tm = true ∧
                trimSpaceIsEmpty desc = true
            · rw [if_pos hb] at h
              simp only [Except.ok.injEq] at h
              subst h
              have hblank : isBlankRecord (recordOf sheet row) = true := by
                rw [hrec _ _ rfl rfl, isBlankRecord_seven]
                simp [hb.1, hb.2.1, hb.2.2]
              simp [stepRecord, expectedOne, hblank]
            · rw [if_neg hb] at h
              cases h4 : parseValues row (colBounds sheet).1 sheet.SizeCol with
              | error f => simp [h4] at h
              | ok size =>
                cases h5 : parseValues row (colBounds sheet).1 sheet.YearCol with
                | error f => simp [h4, h5] at h
                | ok year =>
                  simp only [h4, h5, Except.ok.injEq] at h
                  subst h
                  have f4 : fieldOf sheet row sheet.SizeCol = size := by simp [fieldOf, h4]
                  have f5 : fieldOf sheet row sheet.YearCol = year := by simp [fieldOf, h5]
                  have hr := hrec size year f4 f5
                  have hblank : isBlankRecord (recordOf sheet row) = false := by
                    rw [hr, isBlankRecord_seven]
                    cases hq : (trimSpaceIsEmpty _ && trimSpaceIsEmpty _ && trimSpaceIsEmpty desc)
                    · rfl
                    · exfalso
                      simp only [Bool.and_eq_true] at hq
                      exact hb ⟨hq.1.1, hq.1.2, hq.2⟩
                  have hexp : expectedOne sheet (k, row) = some (recordOf sheet row) := by
                    simp only [expectedOne, hex, hblank, Bool.false_eq_true, or_self, if_false]
                  rw [hexp, hr]
                  rfl

theorem rowLoop_spec (sheet : shirtSheet) :
    ∀ (rows : List (List Cell)) (k : Nat) (out : Output),
      ∃ emitted rest,
        (rowLoop sheet (colBounds sheet).1 (startRowOf sheet) k rows out).1.csv
            = out.csv ++ emitted ∧
          (rows.enumFrom k).filterMap (expectedOne sheet) = emitted ++ rest ∧
          ((rowLoop sheet (colBounds sheet).1 (startRowOf sheet) k rows out).2 = none →
            rest = []) := by
  intro rows
  induction rows with
  | nil =>
    intro k out
    exact ⟨[], [], by simp [rowLoop], by simp, fun _ => rfl⟩
  | cons row rows ih =>
    intro k out
    cases hp : processRow sheet (colBounds sheet).1 (startRowOf sheet) k row with
    | error f =>
      refine ⟨[], _, ?_, (List.nil_append _).symm, ?_⟩
      · simp only [rowLoop, hp, List.append_nil]
      · simp only [rowLoop, hp]
        intro h
        cases h
    | ok step =>
      have hs := processRow_spec sheet k row step hp
      cases step with
      | excluded =>
        obtain ⟨em, rest, h1, h2, h3⟩ :=
          ih (k + 1) { out with log := out.log ++ [LogLine.rowExcluded k] }
        refine ⟨em, rest, ?_, ?_, ?_⟩
        · simp only [rowLoop, hp]
          exact h1
        · simp only [List.enumFrom_cons, List.filterMap_cons, ← hs, stepRecord]
          exact h2
        · simp only [rowLoop, hp]
          exact h3
      | empty =>
        obtain ⟨em, rest, h1, h2, h3⟩ :=
          ih (k + 1) { out with log := out.log ++ [LogLine.rowEmpty k] }
        refine ⟨em, rest, ?_, ?_, ?_⟩
        · simp only [rowLoop, hp]
          exact h1
        · simp only [List.enumFrom_cons, List.filterMap_cons, ← hs, stepRecord]
          exact h2
        · simp only [rowLoop, hp]
          exact h3
      | write r =>
        obtain ⟨em, rest, h1, h2, h3⟩ :=
          ih (k + 1) { out with csv := out.csv ++ [r] }
        refine ⟨r :: em, rest, ?_, ?_, ?_⟩
        · simp only [rowLoop, hp]
          rw [h1]
          simp
        · simp only [List.enumFrom_cons, List.filterMap_cons, ← hs, stepRecord]
          rw [h2]
          rfl
        · simp only [rowLoop, hp]
          exact h3

theorem sheetLoop_spec (fetch : Fetch) :
    ∀ (sheets : List shirtSheet) (total : Int) (out : Output),
      ∃ emitted rest,
        (sheetLoop fetch sheets total out).1.1.csv = out.csv ++ emitted ∧
          expectedAll fetch sheets = emitted ++ rest ∧
          ((sheetLoop fetch sheets total out).2 = none → rest = []) := by
  intro sheets
  induction sheets with
  | nil =>
    intro total out
    exact ⟨[], [], by simp [sheetLoop], by simp [expectedAll], fun _ => rfl⟩
  | cons sheet sheets ih =>
    intro total out
    have hexp : expectedAll fetch (sheet :: sheets) =
        expectedRecords sheet ((fetch sheet.ID (sheetRangeOf sheet)).getD []) ++
          expectedAll fetch sheets := by
      simp [expectedAll]
    cases hf : fetch sheet.ID (sheetRangeOf sheet) with
    | none =>
      refine ⟨[], _, ?_, (List.nil_append _).symm, ?_⟩
      · simp only [sheetLoop, hf, List.append_nil]
      · simp only [sheetLoop, hf]
        intro h
        cases h
    | some values =>
      obtain ⟨em1, rest1, a1, a2, a3⟩ :=
        rowLoop_spec sheet values 0
          { out with log := out.log ++ [LogLine.retrieving (sheetRangeOf sheet) sheet.ID] }
      rw [hexp, hf]
      simp only [Option.getD_some, expectedRecords, List.enum]
      rw [a2]
      cases hr : rowLoop sheet (colBounds sheet).1 (startRowOf sheet) 0 values
          { out with log := out.log ++ [LogLine.retrieving (sheetRangeOf sheet) sheet.ID] } with
      | mk out2 fo =>
        rw [hr] at a1 a3
        cases fo with
        | some f =>
          refine ⟨em1, rest1 ++ expectedAll fetch sheets, ?_, by simp, ?_⟩
          · simp only [sheetLoop, hf, hr]
            exact a1
          · simp only [sheetLoop, hf, hr]
            intro h
            cases h
        | none =>
          have hr1 : rest1 = [] := a3 rfl
          subst hr1
          obtain ⟨em2, rest2, b1, b2, b3⟩ :=
            ih (total + (values.length : Int))
              { out2 with
                log := out2.log ++
                  [LogLine.sellerListings (values.length : Int) sheet.Seller] }
          refine ⟨em1 ++ em2, rest2, ?_, ?_, ?_⟩
          · simp only [sheetLoop, hf, hr]
            rw [b1]
            simp only [] at a1
            rw [a1]
            simp
          · rw [b2]
            simp
          · simp only [sheetLoop, hf, hr]
            exact b3

theorem main_spec (fetch : Fetch) (sheets : List shirtSheet) :
    ∃ rest, expectedAll fetch sheets = dataRecords fetch sheets ++ rest ∧
      ((main fetch sheets).2 = none → rest = []) := by
  obtain ⟨em, rest, h1, h2, h3⟩ := sheetLoop_spec fetch sheets 0 { csv := [csvHeader], log := [] }
  cases hr : sheetLoop fetch sheets 0 { csv := [csvHeader], log := [] } with
  | mk ot fo =>
    obtain ⟨out, total⟩ := ot
    rw [hr] at h1 h3
    simp only [] at h1 h3
    cases fo with
    | some f =>
      refine ⟨rest, ?_, ?_⟩
      · simp only [dataRecords, main, hr]
        rw [h1, h2]
        simp
      · simp only [main, hr]
        intro h
        cases h
    | none =>
      refine ⟨rest, ?_, fun _ => h3 rfl⟩
      simp only [dataRecords, main, hr]
      rw [h1, h2]
      simp

theorem asciiSpace_ne_hyphen (a : Byte) (h : asciiSpace a = true) : a ≠ 45 := by
  intro e
  subst e
  exact absurd h (by decide)

theorem space2_ne_hyphen (a b : Byte) (h : space2 a b = true) : a ≠ 45 ∧ b ≠ 45 := by
  simp only [space2, Bool.decide_and, Bool.and_eq_true, decide_eq_true_eq, Bool.decide_or,
    Bool.or_eq_true] at h
  have h45 : ((45 : Byte).val) = 45 := rfl
  constructor <;> (intro e; rw [e, h45] at h; omega)

theorem space3_ne_hyphen (a b c : Byte) (h : space3 a b c = true) :
    a ≠ 45 ∧ b ≠ 45 ∧ c ≠ 45 := by
  simp only [space3, Bool.decide_and, Bool.and_eq_true, decide_eq_true_eq, Bool.decide_or,
    Bool.or_eq_true] at h
  have h45 : ((45 : Byte).val) = 45 := rfl
  refine ⟨?_, ?_, ?_⟩ <;> (intro e; rw [e, h45] at h; omega)

theorem not_hyphen_of_blank : ∀ (s : GoString), trimSpaceIsEmpty s = true → (45 : Byte) ∉ s
  | [], _ => by simp
  | a :: rest, h => by
    rw [trimSpaceIsEmpty.eq_def] at h
    simp only [] at h
    by_cases ha : asciiSpace a = true
    · rw [if_pos ha] at h
      have hr := not_hyphen_of_blank rest h
      intro hm
      rcases List.mem_cons.mp hm with e | e
      · exact asciiSpace_ne_hyphen a ha e.symm
      · exact hr e
    · rw [if_neg ha] at h
      cases rest with
      | nil => simp at h
      | cons b rest2 =>
        simp only [] at h
        by_cases h2 : space2 a b = true
        · rw [if_pos h2] at h
          have hr := not_hyphen_of_blank rest2 h
          have hn := space2_ne_hyphen a b h2
          intro hm
          rcases List.mem_cons.mp hm with e | e
          · exact hn.1 e.symm
          · rcases List.mem_cons.mp e with e | e
            · exact hn.2 e.symm
            · exact hr e
        · rw [if_neg h2] at h
          cases rest2 with
          | nil => simp at h
          | cons c rest3 =>
            simp only [] at h
            by_cases h3 : space3 a b c = true
            · rw [if_pos h3] at h
              have hr := not_hyphen_of_blank rest3 h
              have hn := space3_ne_hyphen a b c h3
              intro hm
              rcases List.mem_cons.mp hm with e | e
              · exact hn.1 e.symm
              · rcases List.mem_cons.mp e with e | e
                · exact hn.2.1 e.symm
                · rcases List.mem_cons.mp e with e | e
                  · exact hn.2.2 e.symm
                  · exact hr e
            · rw [if_neg h3] at h
              simp at h

/-! ## Claims -/

/-- C1: for every integer index `n` and every exclusion spec whose comma-separated terms
are all well-formed (empty, a decimal integer, or `lo:hi` with `lo` and `hi` each empty or
a decimal integer), `isExcluded n spec` returns a boolean without failing, and it returns
true if and only if some term matches `n`: an integer term `v` when `n = v`, a range term
when `lo ≤ n ≤ hi`, an empty `lo` read as 0 and an empty `hi` as `MaxInt`. -/
theorem isExcluded_iff_some_term_matches (n : Int) (spec : GoString)
    (h : ∀ t ∈ splitOn 44 spec, WellFormedTerm t) :
    (∃ b, isExcluded n spec = Except.ok b) ∧
      (isExcluded n spec = Except.ok true ↔ ∃ t ∈ splitOn 44 spec, TermMatches n t) := by
  rcases isExcludedLoop_spec n (splitOn 44 spec) h with ⟨hm, e⟩ | ⟨hm, e⟩
  · exact ⟨⟨true, e⟩, fun _ => hm, fun _ => e⟩
  · refine ⟨⟨false, e⟩, fun e2 => ?_, fun h2 => absurd h2 hm⟩
    unfold isExcluded at e2
    rw [e] at e2
    cases e2

theorem wellFormed_example : ∀ t ∈ splitOn 44 (bytes "2,:1,,5:,7:9"), WellFormedTerm t := by
  intro t ht
  have hs : splitOn 44 (bytes "2,:1,,5:,7:9") =
      [bytes "2", bytes ":1", [], bytes "5:", bytes "7:9"] := by decide
  rw [hs] at ht
  simp only [List.mem_cons, List.mem_singleton, List.not_mem_nil, or_false] at ht
  rcases ht with e | e | e | e | e
  · exact Or.inr (Or.inl (by rw [e]; decide))
  · exact Or.inr (Or.inr ⟨[], bytes "1", by rw [e]; decide, Or.inl rfl, Or.inr (by decide)⟩)
  · exact Or.inl e
  · exact Or.inr (Or.inr ⟨bytes "5", [], by rw [e]; decide, Or.inr (by decide), Or.inl rfl⟩)
  · exact Or.inr (Or.inr
      ⟨bytes "7", bytes "9", by rw [e]; decide, Or.inr (by decide), Or.inr (by decide)⟩)

/-- Witness of C1 on the spec `2,:1,,5:,7:9` and the index 6. -/
theorem isExcluded_iff_some_term_matches_witness :
    (∀ t ∈ splitOn 44 (bytes "2,:1,,5:,7:9"), WellFormedTerm t) ∧
      ((∃ b, isExcluded 6 (bytes "2,:1,,5:,7:9") = Except.ok b) ∧
        (isExcluded 6 (bytes "2,:1,,5:,7:9") = Except.ok true ↔
          ∃ t ∈ splitOn 44 (bytes "2,:1,,5:,7:9"), TermMatches 6 t)) :=
  ⟨wellFormed_example,
    isExcluded_iff_some_term_matches 6 (bytes "2,:1,,5:,7:9") wellFormed_example⟩

/-- C3 (the code departs from the claim): on the references `E`, `A`, `B`, `C`, `D`
`findMinMaxCol`, started with `MaxInt` and `MinInt`, leaves max at 68 (`D`) although the
greatest letter code in the references is 69 (`E`); on the single reference `A` it leaves
max at `MinInt`. -/
theorem findMinMaxCol_max_misses_first_letter :
    (findMinMaxCol [bytes "E", bytes "A", bytes "B", bytes "C", bytes "D"] (MaxInt, MinInt)).2
        = 68 ∧
      (69 : Int) ∈ upperCodes [bytes "E", bytes "A", bytes "B", bytes "C", bytes "D"] ∧
      (findMinMaxCol [bytes "A", [], [], [], []] (MaxInt, MinInt)).2 = MinInt := by
  decide

/-- C4: for every list of column references containing at least one uppercase ASCII letter,
`findMinMaxCol` started with min = `MaxInt` and max = `MinInt` leaves min equal to the least
uppercase-letter code occurring in the references: it is one of those codes and no such
code is smaller.  Bytes outside `A` to `Z` do not enter `upperCodes`. -/
theorem findMinMaxCol_min_is_least (refs : List GoString) (h : upperCodes refs ≠ []) :
    (findMinMaxCol refs (MaxInt, MinInt)).1 ∈ upperCodes refs ∧
      ∀ c ∈ upperCodes refs, (findMinMaxCol refs (MaxInt, MinInt)).1 ≤ c := by
  rw [findMinMaxCol_fst]
  have hle := foldl_min_le (upperCodes refs) MaxInt
  refine ⟨?_, hle.2⟩
  rcases foldl_min_mem (upperCodes refs) MaxInt with e | e
  · exfalso
    obtain ⟨x, hx⟩ := List.exists_mem_of_ne_nil _ h
    have h1 := hle.2 x hx
    have h2 := upperCodes_lt refs x hx
    simp only [] at e h1
    rw [e] at h1
    simp only [MaxInt] at h1
    omega
  · exact e

/-- Witness of C4 on the references `C`, `A,D`, empty, `b`, `B`: the minimum is 65. -/
theorem findMinMaxCol_min_is_least_witness :
    upperCodes [bytes "C", bytes "A,D", [], bytes "b", bytes "B"] ≠ [] ∧
      ((findMinMaxCol [bytes "C", bytes "A,D", [], bytes "b", bytes "B"] (MaxInt, MinInt)).1 ∈
          upperCodes [bytes "C", bytes "A,D", [], bytes "b", bytes "B"] ∧
        ∀ c ∈ upperCodes [bytes "C", bytes "A,D", [], bytes "b", bytes "B"],
          (findMinMaxCol [bytes "C", bytes "A,D", [], bytes "b", bytes "B"] (MaxInt, MinInt)).1
            ≤ c) :=
  ⟨by decide,
    findMinMaxCol_min_is_least [bytes "C", bytes "A,D", [], bytes "b", bytes "B"] (by decide)⟩

/-- C5 (the code departs from the claim): with the row `["x"]`, first column `B` (66) and
the reference `A`, the computed index is -1; `parseValues` indexes the row with it and
panics instead of returning the empty string.  An index that is too large does give the
empty string. -/
theorem parseValues_negative_index_panics :
    parseValues [Cell.str (bytes "x")] 66 (bytes "A") = Except.error Fault.indexOutOfRange ∧
      parseValues [Cell.str (bytes "x")] 65 (bytes "B") = Except.ok [] := by
  decide

/-- C6: for every row of text cells (a slice, so of at most `MaxInt` cells), every first
column `f` and every one-byte reference `c` (so every single letter) with
`0 ≤ c - f < len(row)`, `parseValues` returns exactly the text of the cell at position
`c - f`. -/
theorem parseValues_single_in_bounds (cells : List GoString) (f : Int) (c : Byte)
    (hfit : (cells.length : Int) ≤ MaxInt) (h0 : 0 ≤ (c.val : Int) - f)
    (h1 : (c.val : Int) - f < (cells.length : Int)) :
    ∃ text, cells[((c.val : Int) - f).toNat]? = some text ∧
      parseValues (cells.map Cell.str) f [c] = Except.ok text := by
  have hw : wrapInt ((c.val : Int) - f) = (c.val : Int) - f :=
    wrapInt_of_small _ h0 (by omega)
  have hlt : ((c.val : Int) - f).toNat < cells.length := by omega
  refine ⟨cells[((c.val : Int) - f).toNat], List.getElem?_eq_getElem hlt, ?_⟩
  have h2 : ¬ (c.val : Int) - f < 0 := by omega
  simp only [parseValues, parseValuesFuel, hw, List.length_map, h1, if_true, h2, if_false,
    List.getElem?_map, List.getElem?_eq_getElem hlt, Option.map_some']

/-- Witness of C6: the cell of column `C` in a row fetched from column `A` on. -/
theorem parseValues_single_in_bounds_witness :
    ((([bytes "118", bytes "Robonauts", bytes "AM"] : List GoString).length : Int) ≤ MaxInt ∧
      0 ≤ (((67 : Byte).val : Int)) - 65 ∧
      (((67 : Byte).val : Int)) - 65 <
        (([bytes "118", bytes "Robonauts", bytes "AM"] : List GoString).length : Int)) ∧
    ∃ text, [bytes "118", bytes "Robonauts", bytes "AM"][(((67 : Byte).val : Int) - 65).toNat]?
        = some text ∧
      parseValues ([bytes "118", bytes "Robonauts", bytes "AM"].map Cell.str) 65 [67]
        = Except.ok text :=
  ⟨by decide,
    parseValues_single_in_bounds [bytes "118", bytes "Robonauts", bytes "AM"] 65 67
      (by decide) (by decide) (by decide)⟩

/-- C7: for every `k ≥ 2` and every compound reference of `k` single letters separated by
single separator bytes (length `2k - 1`, letters at the even positions), `parseValues`
equals the iterative computation that splits the reference into its `k` letters, extracts
the field of each with `parseValues` and joins the results in order with single spaces;
a fault of an extraction is the fault of both. -/
theorem parseValues_compound_eq_iterative (row : List Cell) (fcol : Int) (col : GoString)
    (k : Nat) (hk : 2 ≤ k) (hlen : col.length = 2 * k - 1)
    (hletters : ∀ l ∈ lettersOf col, isUpper l = true) :
    (lettersOf col).length = k ∧ parseValues row fcol col = parseValuesIter row fcol col := by
  constructor
  · have := lettersOf_length col (by omega)
    omega
  · refine parseValues_eq_iter row fcol col (by omega) ?_
    intro l hl
    have := hletters l hl
    simp only [isUpper, decide_eq_true_eq] at this
    omega

set_option maxRecDepth 10000 in
theorem lettersOf_example_upper : ∀ l ∈ lettersOf (bytes "A,C,E"), isUpper l = true := by
  decide

/-- Witness of C7: the reference `A,C,E` on a row of five cells. -/
theorem parseValues_compound_eq_iterative_witness :
    (2 ≤ 3 ∧ (bytes "A,C,E").length = 2 * 3 - 1 ∧
      ∀ l ∈ lettersOf (bytes "A,C,E"), isUpper l = true) ∧
    ((lettersOf (bytes "A,C,E")).length = 3 ∧
      parseValues (textRow ["a", "b", "c", "d", "e"]) 65 (bytes "A,C,E") =
        parseValuesIter (textRow ["a", "b", "c", "d", "e"]) 65 (bytes "A,C,E")) :=
  ⟨⟨by decide, by decide, lettersOf_example_upper⟩,
    parseValues_compound_eq_iterative (textRow ["a", "b", "c", "d", "e"]) 65 (bytes "A,C,E") 3
      (by decide) (by decide) lettersOf_example_upper⟩

/-- C2: for every list of sheets and every fetch collaborator, the data records the driver
emits are an initial part of the sequence "for each sheet in configuration order, for each
fetched row in its original order, the record of the row if the row is neither excluded by
the exclusion spec of the sheet nor blank, and nothing otherwise", and they are exactly
that sequence when the run ends without a fault. -/
theorem main_emits_records_in_order (fetch : Fetch) (sheets : List shirtSheet) :
    (∃ rest, expectedAll fetch sheets = dataRecords fetch sheets ++ rest) ∧
      ((main fetch sheets).2 = none → dataRecords fetch sheets = expectedAll fetch sheets) := by
  obtain ⟨rest, h1, h2⟩ := main_spec fetch sheets
  refine ⟨⟨rest, h1⟩, fun hn => ?_⟩
  rw [h1, h2 hn, List.append_nil]

set_option maxRecDepth 100000 in
theorem twoSheet_run_completes :
    (main twoSheetFetch
      [scenarioSheet (bytes "S1") (bytes "seller") (bytes "contact"), combinedSheet]).2 = none := by
  decide

set_option maxRecDepth 100000 in
theorem twoSheet_run_records :
    dataRecords twoSheetFetch
        [scenarioSheet (bytes "S1") (bytes "seller") (bytes "contact"), combinedSheet] =
      [[bytes "1", bytes "Cheesy Poofs", bytes "L", bytes "2023", bytes "Polo", bytes "seller",
          bytes "contact"],
        [bytes "3", bytes "Citrus", bytes "M", bytes "2022", bytes "Tee", bytes "seller",
          bytes "contact"],
        [bytes "118", bytes "Robonauts", [], [], bytes "Polo", bytes "seller2", bytes "contact2"],
        [bytes "254", bytes "The Cheesy Poofs", [], [], [], bytes "seller2",
          bytes "contact2"]] := by
  decide

/-- Witness of C2: a run over two sheets that ends without a fault. -/
theorem main_emits_records_in_order_witness :
    (main twoSheetFetch
        [scenarioSheet (bytes "S1") (bytes "seller") (bytes "contact"), combinedSheet]).2 = none ∧
      dataRecords twoSheetFetch
          [scenarioSheet (bytes "S1") (bytes "seller") (bytes "contact"), combinedSheet] =
        expectedAll twoSheetFetch
          [scenarioSheet (bytes "S1") (bytes "seller") (bytes "contact"), combinedSheet] :=
  ⟨twoSheet_run_completes,
    (main_emits_records_in_order twoSheetFetch
      [scenarioSheet (bytes "S1") (bytes "seller") (bytes "contact"), combinedSheet]).2
      twoSheet_run_completes⟩

/-- C8: for every row that is not excluded, if the values extracted for team number, team
name and description are all white space only (or empty), the body of the row loop ends at
the "empty" `continue` and writes no record, whatever the size and year references give;
and every data record a run emits has a team number, team name or description that is not
white space only. -/
theorem blank_rows_are_never_emitted :
    (∀ (sheet : shirtSheet) (minColNum : Int) (startRow : Byte) (k : Nat) (row : List Cell)
        (tNum tName desc : GoString),
        isExcluded ((k : Int) + (atoi (encodeRune startRow.val)).1) sheet.ExcludeRows
          = Except.ok false →
        parseValues row minColNum sheet.TeamNumCol = Except.ok tNum →
        parseValues row minColNum sheet.TeamNameCol = Except.ok tName →
        parseValues row minColNum sheet.DescCol = Except.ok desc →
        trimSpaceIsEmpty tNum = true → trimSpaceIsEmpty tName = true →
        trimSpaceIsEmpty desc = true →
        processRow sheet minColNum startRow k row = Except.ok RowStep.empty) ∧
      (∀ (fetch : Fetch) (sheets : List shirtSheet) (r : List GoString),
        r ∈ dataRecords fetch sheets →
        ∃ tNum tName size year desc seller contact,
          r = [tNum, tName, size, year, desc, seller, contact] ∧
            (trimSpaceIsEmpty tNum = false ∨ trimSpaceIsEmpty tName = false ∨
              trimSpaceIsEmpty desc = false)) := by
  constructor
  · intro sheet minColNum startRow k row tNum tName desc hx h1 h2 h3 b1 b2 b3
    have hc : containsByte 45 tNum = false := by
      cases hb : containsByte 45 tNum
      · rfl
      · exact absurd ((containsByte_iff 45 tNum).mp hb) (not_hyphen_of_blank tNum b1)
    simp only [processRow, hx, h1, h2, h3, hc, Bool.false_eq_true, and_false, decide_False,
      if_false, b1, b2, b3, and_self, if_true]
  · intro fetch sheets r hr
    obtain ⟨rest, h1, _⟩ := main_spec fetch sheets
    have hmem : r ∈ expectedAll fetch sheets := by
      rw [h1]
      exact List.mem_append_left _ hr
    simp only [expectedAll, List.mem_flatMap, expectedRecords, List.mem_filterMap] at hmem
    obtain ⟨sheet, _, p, _, hp⟩ := hmem
    simp only [expectedOne] at hp
    split at hp
    · cases hp
    · rename_i hcond
      simp only [Option.some.injEq] at hp
      have hnb : isBlankRecord (recordOf sheet p.2) = false := by
        cases hq : isBlankRecord (recordOf sheet p.2)
        · rfl
        · exact absurd (Or.inr hq) hcond
      rw [hp] at hnb
      subst hp
      refine ⟨_, _, _, _, _, _, _, rfl, ?_⟩
      simp only [recordOf, isBlankRecord_seven, Bool.and_eq_false_iff] at hnb
      rcases hnb with (h | h) | h
      · exact Or.inl h
      · exact Or.inr (Or.inl h)
      · exact Or.inr (Or.inr h)

set_option maxRecDepth 100000 in
/-- Witness of C8: a row with size and year but blank team number, team name and
description is skipped as empty. -/
theorem blank_rows_are_never_emitted_witness :
    processRow (scenarioSheet (bytes "S1") (bytes "seller") (bytes "contact")) 65 49 0
        (textRow [" ", "", "AM", "2024", "\t"]) = Except.ok RowStep.empty :=
  blank_rows_are_never_emitted.1
    (scenarioSheet (bytes "S1") (bytes "seller") (bytes "contact")) 65 49 0
    (textRow [" ", "", "AM", "2024", "\t"]) (bytes " ") [] (bytes "\t")
    (by decide) (by decide) (by decide) (by decide) (by decide) (by decide) (by decide)

/-- C9: for every sheet whose team-number reference equals its team-name reference and
every row whose extracted team-number text contains a hyphen, the record the driver writes
for the row has as team number the part of that text before the first hyphen and as team
name the part after the first hyphen, each with leading and trailing spaces removed. -/
theorem combined_team_cell_is_split (sheet : shirtSheet) (k : Nat) (row : List Cell)
    (tNum : GoString) (r : List GoString)
    (hsame : sheet.TeamNumCol = sheet.TeamNameCol)
    (hnum : parseValues row (colBounds sheet).1 sheet.TeamNumCol = Except.ok tNum)
    (hhyphen : (45 : Byte) ∈ tNum)
    (hwrite : processRow sheet (colBounds sheet).1 (startRowOf sheet) k row
      = Except.ok (RowStep.write r)) :
    r[0]? = some (trimByte 32 (beforeHyphen tNum)) ∧
      r[1]? = some (trimByte 32 (afterHyphen tNum)) := by
  have hs := processRow_spec sheet k row _ hwrite
  simp only [stepRecord, expectedOne] at hs
  split at hs
  · cases hs
  · simp only [Option.some.injEq] at hs
    have hname : parseValues row (colBounds sheet).1 sheet.TeamNameCol = Except.ok tNum := by
      rw [← hsame]; exact hnum
    subst hs
    simp [recordOf, fieldOf, hnum, hname, hsame, hhyphen]

set_option maxRecDepth 100000 in
/-- Witness of C9: reference `A` for both fields and the cell `118 - Robonauts` give the
team number `118` and the team name `Robonauts`. -/
theorem combined_team_cell_is_split_witness :
    (trimByte 32 (beforeHyphen (bytes "118 - Robonauts")) = bytes "118" ∧
      trimByte 32 (afterHyphen (bytes "118 - Robonauts")) = bytes "Robonauts") ∧
    ([bytes "118", bytes "Robonauts", [], [], bytes "Polo", bytes "seller2",
        bytes "contact2"][0]? = some (trimByte 32 (beforeHyphen (bytes "118 - Robonauts"))) ∧
      [bytes "118", bytes "Robonauts", [], [], bytes "Polo", bytes "seller2",
        bytes "contact2"][1]? = some (trimByte 32 (afterHyphen (bytes "118 - Robonauts")))) :=
  ⟨by decide,
    combined_team_cell_is_split combinedSheet 1
      [Cell.str (bytes "118 - Robonauts"), Cell.str (bytes "Polo")] (bytes "118 - Robonauts")
      [bytes "118", bytes "Robonauts", [], [], bytes "Polo", bytes "seller2", bytes "contact2"]
      (by decide) (by decide) (by decide) (by decide)⟩

theorem scenario_bounds (id seller contact : GoString) :
    colBounds (scenarioSheet id seller contact) = (65, 69) ∧
      sheetRangeOf (scenarioSheet id seller contact) = bytes "A1:E" ∧
      startRowOf (scenarioSheet id seller contact) = 49 := by
  have h1 : findMinMaxCol [bytes "A", bytes "B", bytes "C", bytes "D", bytes "E"]
      (MaxInt, MinInt) = (65, 69) := by decide
  have h2 : fmtC 65 ++ encodeRune (49 : Byte).val ++ [58] ++ fmtC 69 = bytes "A1:E" := by decide
  refine ⟨h1, ?_, rfl⟩
  show fmtC (findMinMaxCol [bytes "A", bytes "B", bytes "C", bytes "D", bytes "E"]
      (MaxInt, MinInt)).1 ++ encodeRune (49 : Byte).val ++ [58] ++
    fmtC (findMinMaxCol [bytes "A", bytes "B", bytes "C", bytes "D", bytes "E"]
      (MaxInt, MinInt)).2 = bytes "A1:E"
  rw [h1]
  exact h2

theorem scenario_processRow (id seller contact : GoString) (k : Nat) (first : GoString)
    (t : List GoString)
    (hex : isExcluded ((k : Int) + (atoi (encodeRune (49 : Byte).val)).1) (bytes "2")
      = Except.ok false)
    (hnb : trimSpaceIsEmpty first = false) :
    processRow (scenarioSheet id seller contact) 65 49 k ((first :: t).map Cell.str) =
      Except.ok (RowStep.write
        [first, t[0]?.getD [], t[1]?.getD [], t[2]?.getD [], t[3]?.getD [], seller, contact]) := by
  have hA : (scenarioSheet id seller contact).TeamNumCol = [65] := by
    show bytes "A" = [65]
    decide
  have hB : (scenarioSheet id seller contact).TeamNameCol = [66] := by
    show bytes "B" = [66]
    decide
  have hC : (scenarioSheet id seller contact).SizeCol = [67] := by
    show bytes "C" = [67]
    decide
  have hD : (scenarioSheet id seller contact).YearCol = [68] := by
    show bytes "D" = [68]
    decide
  have hE : (scenarioSheet id seller contact).DescCol = [69] := by
    show bytes "E" = [69]
    decide
  have hX : (scenarioSheet id seller contact).ExcludeRows = bytes "2" := rfl
  have hS : (scenarioSheet id seller contact).Seller = seller := rfl
  have hT : (scenarioSheet id seller contact).Contact = contact := rfl
  have pA := parseValues_text_single (first :: t) 65 65 (by decide) (by decide)
  have pB := parseValues_text_single (first :: t) 65 66 (by decide) (by decide)
  have pC := parseValues_text_single (first :: t) 65 67 (by decide) (by decide)
  have pD := parseValues_text_single (first :: t) 65 68 (by decide) (by decide)
  have pE := parseValues_text_single (first :: t) 65 69 (by decide) (by decide)
  have nA : (((65 : Byte).val : Int) - 65).toNat = 0 := by decide
  have nB : (((66 : Byte).val : Int) - 65).toNat = 1 := by decide
  have nC : (((67 : Byte).val : Int) - 65).toNat = 2 := by decide
  have nD : (((68 : Byte).val : Int) - 65).toNat = 3 := by decide
  have nE : (((69 : Byte).val : Int) - 65).toNat = 4 := by decide
  rw [nA] at pA
  rw [nB] at pB
  rw [nC] at pC
  rw [nD] at pD
  rw [nE] at pE
  simp only [List.getElem?_cons_zero, List.getElem?_cons_succ, Option.getD_some] at pA pB pC pD pE
  have hne : ([65] : GoString) ≠ [66] := by decide
  simp only [processRow, hA, hB, hC, hD, hE, hX, hS, hT, hex, pA, pB, pC, pD, pE, hne, false_and,
    decide_False, Bool.false_eq_true, if_false, hnb]

/-- C10, as the code has it: in the end-to-end scenario (one sheet, start row unset,
`excludeRows` = `2`, columns `A` to `E`; three fetched rows of text cells whose first cells
are `1`, `118` and `3`) the run ends without a fault, the middle row is the one excluded,
and the driver emits exactly two data records, those of the first and of the third row,
with team numbers `1` and `3`. -/
theorem scenario_emits_first_and_third (fetch : Fetch) (id seller contact : GoString)
    (t1 t3 : List GoString) (hf : fetch id (bytes "A1:E") = some (scenarioRows t1 t3)) :
    (main fetch [scenarioSheet id seller contact]).2 = none ∧
      ∃ r1 r3, dataRecords fetch [scenarioSheet id seller contact] = [r1, r3] ∧
        r1.head? = some (bytes "1") ∧ r3.head? = some (bytes "3") := by
  obtain ⟨hb, hr, hs⟩ := scenario_bounds id seller contact
  have hI : (scenarioSheet id seller contact).ID = id := rfl
  have hX : (scenarioSheet id seller contact).ExcludeRows = bytes "2" := rfl
  have p1 := scenario_processRow id seller contact 0 (bytes "1") t1 (by decide) (by decide)
  have p3 := scenario_processRow id seller contact 2 (bytes "3") t3 (by decide) (by decide)
  have p2 : processRow (scenarioSheet id seller contact) 65 49 1
      ([bytes "118", bytes "Robonauts", bytes "AM", bytes "2024", bytes "Shirt"].map Cell.str)
      = Except.ok RowStep.excluded := by
    have hx : isExcluded (((1 : Nat) : Int) + (atoi (encodeRune (49 : Byte).val)).1) (bytes "2")
        = Except.ok true := by decide
    simp only [processRow, hX, hx]
  have hloop : sheetLoop fetch [scenarioSheet id seller contact] 0
      { csv := [csvHeader], log := [] } =
      (({ csv := [csvHeader,
            [bytes "1", t1[0]?.getD [], t1[1]?.getD [], t1[2]?.getD [], t1[3]?.getD [],
              seller, contact],
            [bytes "3", t3[0]?.getD [], t3[1]?.getD [], t3[2]?.getD [], t3[3]?.getD [],
              seller, contact]],
          log := [LogLine.retrieving (bytes "A1:E") id, LogLine.rowExcluded 1,
            LogLine.sellerListings 3 seller] }, 3), none) := by
    simp only [sheetLoop, hr, hI, hf, hb, hs, scenarioRows, rowLoop, p1, p2, p3]
    rfl
  refine ⟨?_,
    [bytes "1", t1[0]?.getD [], t1[1]?.getD [], t1[2]?.getD [], t1[3]?.getD [], seller, contact],
    [bytes "3", t3[0]?.getD [], t3[1]?.getD [], t3[2]?.getD [], t3[3]?.getD [], seller, contact],
    ?_, rfl, rfl⟩
  · simp only [main, hloop]
  · simp only [dataRecords, main, hloop]
    rfl

set_option maxRecDepth 100000 in
theorem scenario_records :
    dataRecords scenarioFetch [scenarioSheet (bytes "S1") (bytes "seller") (bytes "contact")] =
      [[bytes "1", bytes "Cheesy Poofs", bytes "L", bytes "2023", bytes "Polo", bytes "seller",
          bytes "contact"],
        [bytes "3", bytes "Citrus", bytes "M", bytes "2022", bytes "Tee", bytes "seller",
          bytes "contact"]] := by
  decide

/-- C10, counterexample: on a fetch result of the scenario the driver does not emit
exactly one data record with team number `118`; it emits the records of the rows `1` and
`3`. -/
theorem scenario_not_single_record_118 :
    ¬ ∃ r, dataRecords scenarioFetch
        [scenarioSheet (bytes "S1") (bytes "seller") (bytes "contact")] = [r] ∧
      r.head? = some (bytes "118") := by
  rintro ⟨r, h, _⟩
  rw [scenario_records] at h
  simp at h

/-- Witness of C10 as amended, on `scenarioFetch`. -/
theorem scenario_emits_first_and_third_witness :
    scenarioFetch (bytes "S1") (bytes "A1:E") =
        some (scenarioRows [bytes "Cheesy Poofs", bytes "L", bytes "2023", bytes "Polo"]
          [bytes "Citrus", bytes "M", bytes "2022", bytes "Tee"]) ∧
      ((main scenarioFetch [scenarioSheet (bytes "S1") (bytes "seller") (bytes "contact")]).2
          = none ∧
        ∃ r1 r3, dataRecords scenarioFetch
            [scenarioSheet (bytes "S1") (bytes "seller") (bytes "contact")] = [r1, r3] ∧
          r1.head? = some (bytes "1") ∧ r3.head? = some (bytes "3")) :=
  ⟨rfl,
    scenario_emits_first_and_third scenarioFetch (bytes "S1") (bytes "seller") (bytes "contact")
      [bytes "Cheesy Poofs", bytes "L", bytes "2023", bytes "Polo"]
      [bytes "Citrus", bytes "M", bytes "2022", bytes "Tee"] rfl⟩

/-! ## Lemmas on ill-formed and particular exclusion terms -/

theorem isExcludedLoop_badRange (n : Int) (t : GoString) (ts : List GoString)
    (h : BadRangeTerm t) : isExcludedLoop n (t :: ts) = Except.error Fault.couldNotConvert := by
  obtain ⟨lo, hi, e, hlo, hbad⟩ := h
  subst e
  have hc : containsByte 58 (lo ++ 58 :: hi) = true := (containsByte_iff _ _).mpr (by simp)
  have hi1 := indexByte_append 58 lo hi hlo
  have e1 : sliceTo (lo ++ 58 :: hi) (lo.length : Int) = lo := by simp [sliceTo]
  have e2 : sliceFrom (lo ++ 58 :: hi) ((lo.length : Int) + 1) = hi := by
    have : ((lo.length : Int) + 1).toNat = lo.length + 1 := by omega
    simp [sliceFrom, this]
  simp only [isExcludedLoop, hc, if_true, hi1, e1, e2]
  by_cases hl : lo.length = 0
  · have hlo0 : lo = [] := List.length_eq_zero.mp hl
    rcases hbad with ⟨hne, _⟩ | ⟨hne, herr⟩
    · exact absurd hlo0 hne
    · have hh : hi.length ≠ 0 := fun h0 => hne (List.length_eq_zero.mp h0)
      cases ha : (atoi hi).2 with
      | none => exact absurd ha herr
      | some err => simp [hl, hh, ha, handleErr]
  · cases ha : (atoi lo).2 with
    | some err => simp [hl, ha, handleErr]
    | none =>
      rcases hbad with ⟨_, herr⟩ | ⟨hne, herr⟩
      · exact absurd ha herr
      · have hh : hi.length ≠ 0 := fun h0 => hne (List.length_eq_zero.mp h0)
        cases hb : (atoi hi).2 with
        | none => exact absurd hb herr
        | some err => simp [hl, hh, ha, hb, handleErr]

theorem handleErr_cases (err : Option NumError) :
    handleErr err true Fault.couldNotConvert = Except.ok () ∨
      handleErr err true Fault.couldNotConvert = Except.error Fault.couldNotConvert := by
  cases err <;> simp [handleErr]

theorem isExcludedLoop_cons_cases (n : Int) (t : GoString) (ts : List GoString) :
    isExcludedLoop n (t :: ts) = Except.error Fault.couldNotConvert ∨
      isExcludedLoop n (t :: ts) = Except.ok true ∨
      isExcludedLoop n (t :: ts) = isExcludedLoop n ts := by
  rw [isExcludedLoop]
  by_cases hc : containsByte 58 t = true
  · rw [if_pos hc]
    by_cases hl : (sliceTo t (indexByte 58 t)).length = 0
    · by_cases hh : (sliceFrom t (indexByte 58 t + 1)).length = 0
      · by_cases hr : n ≥ 0 ∧ n ≤ MaxInt
        · exact Or.inr (Or.inl (by simp only [hl, hh, if_true, hr, and_self]))
        · exact Or.inr (Or.inr (by simp only [hl, hh, if_true, hr, if_false]))
      · rcases handleErr_cases (atoi (sliceFrom t (indexByte 58 t + 1))).2 with e | e
        · by_cases hr : n ≥ 0 ∧ n ≤ (atoi (sliceFrom t (indexByte 58 t + 1))).1
          · exact Or.inr (Or.inl (by simp only [hl, hh, if_true, if_false, e, hr, and_self]))
          · exact Or.inr (Or.inr (by simp only [hl, hh, if_true, if_false, e, hr]))
        · exact Or.inl (by simp only [hl, hh, if_true, if_false, e])
    · rcases handleErr_cases (atoi (sliceTo t (indexByte 58 t))).2 with e | e
      · by_cases hh : (sliceFrom t (indexByte 58 t + 1)).length = 0
        · by_cases hr : n ≥ (atoi (sliceTo t (indexByte 58 t))).1 ∧ n ≤ MaxInt
          · exact Or.inr (Or.inl (by simp only [hl, hh, if_true, if_false, e, hr, and_self]))
          · exact Or.inr (Or.inr (by simp only [hl, hh, if_true, if_false, e, hr]))
        · rcases handleErr_cases (atoi (sliceFrom t (indexByte 58 t + 1))).2 with e2 | e2
          · by_cases hr : n ≥ (atoi (sliceTo t (indexByte 58 t))).1 ∧
                n ≤ (atoi (sliceFrom t (indexByte 58 t + 1))).1
            · exact Or.inr (Or.inl (by simp only [hl, hh, if_false, e, e2, hr, and_self, if_true]))
            · exact Or.inr (Or.inr (by simp only [hl, hh, if_false, e, e2, hr]))
          · exact Or.inl (by simp only [hl, hh, if_false, e, e2])
      · exact Or.inl (by simp only [hl, if_false, e])
  · rw [if_neg hc]
    by_cases hl : t.length ≠ 0
    · rw [if_pos hl]
      rcases handleErr_cases (atoi t).2 with e | e
      · by_cases hr : n = (atoi t).1
        · exact Or.inr (Or.inl (by simp only [e, ← hr, if_true]))
        · exact Or.inr (Or.inr (by simp only [e, hr, if_false]))
      · exact Or.inl (by simp only [e])
    · rw [if_neg hl]
      exact Or.inr (Or.inr rfl)

theorem isExcludedLoop_before_bad (n : Int) (bad : GoString) (post : List GoString)
    (h : BadRangeTerm bad) :
    ∀ pre : List GoString,
      isExcludedLoop n (pre ++ bad :: post) = Except.error Fault.couldNotConvert ∨
        isExcludedLoop n (pre ++ bad :: post) = Except.ok true
  | [] => Or.inl (isExcludedLoop_badRange n bad post h)
  | t :: pre => by
    rcases isExcludedLoop_cons_cases n t (pre ++ bad :: post) with e | e | e
    · exact Or.inl e
    · exact Or.inr e
    · rw [List.cons_append, e]
      exact isExcludedLoop_before_bad n bad post h pre

theorem isExcludedLoop_wellFormed_before_bad (n : Int) (bad : GoString) (post : List GoString)
    (h : BadRangeTerm bad) :
    ∀ pre : List GoString, (∀ t ∈ pre, WellFormedTerm t) →
      ((∃ t ∈ pre, TermMatches n t) ∧
          isExcludedLoop n (pre ++ bad :: post) = Except.ok true) ∨
        ((¬ ∃ t ∈ pre, TermMatches n t) ∧
          isExcludedLoop n (pre ++ bad :: post) = Except.error Fault.couldNotConvert)
  | [], _ => Or.inr ⟨by simp, isExcludedLoop_badRange n bad post h⟩
  | t :: pre, hwf => by
    have ht := hwf t (List.mem_cons_self t pre)
    have hpre : ∀ u ∈ pre, WellFormedTerm u := fun u hu => hwf u (List.mem_cons_of_mem t hu)
    rcases isExcludedLoop_step n t (pre ++ bad :: post) ht with ⟨hm, e⟩ | ⟨hm, e⟩
    · exact Or.inl ⟨⟨t, List.mem_cons_self t pre, hm⟩, e⟩
    · rw [List.cons_append, e]
      rcases isExcludedLoop_wellFormed_before_bad n bad post h pre hpre with
        ⟨⟨u, hu, hum⟩, e2⟩ | ⟨hno, e2⟩
      · exact Or.inl ⟨⟨u, List.mem_cons_of_mem t hu, hum⟩, e2⟩
      · refine Or.inr ⟨?_, e2⟩
        rintro ⟨u, hu, hum⟩
        rcases List.mem_cons.mp hu with hu | hu
        · subst hu; exact hm hum
        · exact hno ⟨u, hu, hum⟩

theorem splitOn_only_commas :
    ∀ spec : GoString, (∀ c ∈ spec, c = 44) → ∀ t ∈ splitOn 44 spec, t = []
  | [], _ => by simp [splitOn]
  | c :: cs, h => by
    have hc : c = 44 := h c (List.mem_cons_self c cs)
    have ih := splitOn_only_commas cs (fun d hd => h d (List.mem_cons_of_mem c hd))
    intro t ht
    simp only [splitOn, hc, if_true, List.mem_cons] at ht
    rcases ht with e | e
    · exact e
    · exact ih t e

theorem isExcludedLoop_all_empty (n : Int) :
    ∀ terms : List GoString, (∀ t ∈ terms, t = []) → isExcludedLoop n terms = Except.ok false
  | [], _ => by simp [isExcludedLoop]
  | t :: ts, h => by
    have ht : t = [] := h t (List.mem_cons_self t ts)
    subst ht
    rw [isExcludedLoop_empty]
    exact isExcludedLoop_all_empty n ts (fun u hu => h u (List.mem_cons_of_mem _ hu))

theorem processRow_not_excluded (sheet : shirtSheet) (minColNum : Int) (startRow : Byte)
    (k : Nat) (row : List Cell)
    (hx : isExcluded ((k : Int) + (atoi (encodeRune startRow.val)).1) sheet.ExcludeRows
      = Except.ok false) :
    processRow sheet minColNum startRow k row ≠ Except.ok RowStep.excluded := by
  intro h
  simp only [processRow, hx] at h
  cases h1 : parseValues row minColNum sheet.TeamNumCol with
  | error f => simp [h1] at h
  | ok tNum0 =>
    cases h2 : parseValues row minColNum sheet.TeamNameCol with
    | error f => simp [h1, h2] at h
    | ok tName0 =>
      cases h3 : parseValues row minColNum sheet.DescCol with
      | error f => simp [h1, h2, h3] at h
      | ok desc =>
        simp only [h1, h2, h3] at h
        cases h4 : parseValues row minColNum sheet.SizeCol with
        | error f =>
          simp only [h4] at h
          split_ifs at h <;> simp at h
        | ok size =>
          cases h5 : parseValues row minColNum sheet.YearCol with
          | error f =>
            simp only [h4, h5] at h
            split_ifs at h <;> simp at h
          | ok year =>
            simp only [h4, h5] at h
            split_ifs at h <;> simp at h

/-! ## Claims C11 to C16 -/

/-- C11, counterexample: the spec `5,x:1` has the range term `x:1` whose lower bound does
not parse, yet for the row index 5 `isExcluded` returns true instead of failing. -/
theorem isExcluded_malformed_range_returns_true :
    bytes "x:1" ∈ splitOn 44 (bytes "5,x:1") ∧ BadRangeTerm (bytes "x:1") ∧
      isExcluded 5 (bytes "5,x:1") = Except.ok true :=
  ⟨by decide, ⟨bytes "x", bytes "1", by decide, by decide, Or.inl ⟨by decide, by decide⟩⟩,
    by decide⟩

/-- C11, as the code has it: for every exclusion spec in which some range term has a
non-empty lower or upper bound that does not parse as an integer, `isExcluded` never
returns false: for every row index it aborts with the conversion error or returns true;
and when the terms before that range term are well-formed, it returns true if one of them
matches the index and aborts with the conversion error otherwise. -/
theorem isExcluded_malformed_range_fails_unless_matched (n : Int) (spec : GoString)
    (pre : List GoString) (bad : GoString) (post : List GoString)
    (hs : splitOn 44 spec = pre ++ bad :: post) (hb : BadRangeTerm bad) :
    (isExcluded n spec = Except.error Fault.couldNotConvert ∨
        isExcluded n spec = Except.ok true) ∧
      ((∀ t ∈ pre, WellFormedTerm t) →
        ((∃ t ∈ pre, TermMatches n t) → isExcluded n spec = Except.ok true) ∧
          ((¬ ∃ t ∈ pre, TermMatches n t) →
            isExcluded n spec = Except.error Fault.couldNotConvert)) := by
  unfold isExcluded
  rw [hs]
  refine ⟨isExcludedLoop_before_bad n bad post hb pre, fun hwf => ?_⟩
  rcases isExcludedLoop_wellFormed_before_bad n bad post hb pre hwf with ⟨hm, e⟩ | ⟨hm, e⟩
  · exact ⟨fun _ => e, fun hno => absurd hm hno⟩
  · exact ⟨fun hyes => absurd hyes hm, fun _ => e⟩

/-- Witness of C11 as amended: the spec `5,x:1` at the index 6, which `5` does not
match. -/
theorem isExcluded_malformed_range_fails_unless_matched_witness :
    (splitOn 44 (bytes "5,x:1") = [bytes "5"] ++ bytes "x:1" :: [] ∧
      BadRangeTerm (bytes "x:1")) ∧
    ((isExcluded 6 (bytes "5,x:1") = Except.error Fault.couldNotConvert ∨
        isExcluded 6 (bytes "5,x:1") = Except.ok true) ∧
      ((∀ t ∈ [bytes "5"], WellFormedTerm t) →
        ((∃ t ∈ [bytes "5"], TermMatches 6 t) →
            isExcluded 6 (bytes "5,x:1") = Except.ok true) ∧
          ((¬ ∃ t ∈ [bytes "5"], TermMatches 6 t) →
            isExcluded 6 (bytes "5,x:1") = Except.error Fault.couldNotConvert))) :=
  ⟨⟨by decide, ⟨bytes "x", bytes "1", by decide, by decide, Or.inl ⟨by decide, by decide⟩⟩⟩,
    isExcluded_malformed_range_fails_unless_matched 6 (bytes "5,x:1") [bytes "5"]
      (bytes "x:1") [] (by decide)
      ⟨bytes "x", bytes "1", by decide, by decide, Or.inl ⟨by decide, by decide⟩⟩⟩

theorem termMatches_colon_ten (n : Int) (h0 : 0 ≤ n) (h10 : n ≤ 10) :
    TermMatches n (bytes ":10") := by
  refine Or.inr ⟨[], bytes "10", by decide, Or.inl rfl, Or.inr (by decide), ?_, ?_⟩
  · simpa [lowerOf] using h0
  · have : upperOf (bytes "10") = 10 := by decide
    rw [this]
    exact h10

set_option maxRecDepth 10000 in
theorem wellFormed_colon_ten : ∀ t ∈ splitOn 44 (bytes ":10"), WellFormedTerm t := by
  intro t ht
  have hs : splitOn 44 (bytes ":10") = [bytes ":10"] := by decide
  rw [hs, List.mem_singleton] at ht
  exact Or.inr (Or.inr ⟨[], bytes "10", by rw [ht]; decide, Or.inl rfl, Or.inr (by decide)⟩)

/-- C12, counterexample: the spec `:10` is well-formed and has the term `:10`, but for
the index -1, which is at most 10, `isExcluded` returns false: an empty lower bound is
read as 0. -/
theorem isExcluded_open_lower_misses_negative :
    (∀ t ∈ splitOn 44 (bytes ":10"), WellFormedTerm t) ∧
      bytes ":10" ∈ splitOn 44 (bytes ":10") ∧ (-1 : Int) ≤ 10 ∧
      isExcluded (-1) (bytes ":10") = Except.ok false :=
  ⟨wellFormed_colon_ten, by decide, by decide, by decide⟩

/-- C12, as the code has it: for every well-formed exclusion spec that has `:10` as one
of its comma-separated terms, `isExcluded n spec` is true for every integer `n` with
`0 ≤ n ≤ 10`. -/
theorem isExcluded_open_lower_range (n : Int) (spec : GoString)
    (hwf : ∀ t ∈ splitOn 44 spec, WellFormedTerm t)
    (hmem : bytes ":10" ∈ splitOn 44 spec) (h0 : 0 ≤ n) (h10 : n ≤ 10) :
    isExcluded n spec = Except.ok true := by
  rcases isExcludedLoop_spec n (splitOn 44 spec) hwf with ⟨_, e⟩ | ⟨hno, _⟩
  · exact e
  · exact absurd ⟨bytes ":10", hmem, termMatches_colon_ten n h0 h10⟩ hno

/-- Witness of C12 as amended: the spec `:10` at the index 0. -/
theorem isExcluded_open_lower_range_witness :
    ((∀ t ∈ splitOn 44 (bytes ":10"), WellFormedTerm t) ∧
      bytes ":10" ∈ splitOn 44 (bytes ":10") ∧ (0 : Int) ≤ 0 ∧ (0 : Int) ≤ 10) ∧
    isExcluded 0 (bytes ":10") = Except.ok true :=
  ⟨⟨wellFormed_colon_ten, by decide, by decide, by decide⟩,
    isExcluded_open_lower_range 0 (bytes ":10") wellFormed_colon_ten (by decide) (by decide)
      (by decide)⟩

theorem not_termMatches_six_five : ¬ TermMatches 6 (bytes "5") := by
  rw [termMatches_decimal 6 (bytes "5") (by decide)]
  decide

set_option maxRecDepth 10000 in
theorem wellFormed_five_six : ∀ t ∈ splitOn 44 (bytes "5,6"), WellFormedTerm t := by
  intro t ht
  have hs : splitOn 44 (bytes "5,6") = [bytes "5", bytes "6"] := by decide
  rw [hs] at ht
  simp only [List.mem_cons, List.mem_singleton, List.not_mem_nil, or_false] at ht
  rcases ht with e | e
  · exact Or.inr (Or.inl (by rw [e]; decide))
  · exact Or.inr (Or.inl (by rw [e]; decide))

/-- C13, counterexample: the spec `5,6` is well-formed and has the term `5`, but
`isExcluded 6` is true on it. -/
theorem isExcluded_six_with_other_term :
    (∀ t ∈ splitOn 44 (bytes "5,6"), WellFormedTerm t) ∧
      bytes "5" ∈ splitOn 44 (bytes "5,6") ∧
      isExcluded 6 (bytes "5,6") = Except.ok true :=
  ⟨wellFormed_five_six, by decide, by decide⟩

/-- C13, as the code has it: for every well-formed exclusion spec that has `5` as one of
its comma-separated terms, `isExcluded 5 spec` is true, and `isExcluded 6 spec` is false
exactly when no other term of the spec matches 6. -/
theorem isExcluded_five_and_six (spec : GoString)
    (hwf : ∀ t ∈ splitOn 44 spec, WellFormedTerm t) (hmem : bytes "5" ∈ splitOn 44 spec) :
    isExcluded 5 spec = Except.ok true ∧
      (isExcluded 6 spec = Except.ok false ↔
        ∀ t ∈ splitOn 44 spec, t ≠ bytes "5" → ¬ TermMatches 6 t) := by
  constructor
  · rcases isExcludedLoop_spec 5 (splitOn 44 spec) hwf with ⟨_, e⟩ | ⟨hno, _⟩
    · exact e
    · refine absurd ⟨bytes "5", hmem, ?_⟩ hno
      rw [termMatches_decimal 5 (bytes "5") (by decide)]
      decide
  · rcases isExcludedLoop_spec 6 (splitOn 44 spec) hwf with ⟨⟨u, hu, hum⟩, e⟩ | ⟨hno, e⟩
    · constructor
      · intro h
        unfold isExcluded at h
        rw [e] at h
        cases h
      · intro h
        have hne : u ≠ bytes "5" := by
          intro hu5
          rw [hu5] at hum
          exact not_termMatches_six_five hum
        exact absurd hum (h u hu hne)
    · exact ⟨fun _ t ht _ hm => hno ⟨t, ht, hm⟩, fun _ => e⟩

/-- Witness of C13 as amended: on the spec `5,6` the index 5 is excluded, and the index 6
is excluded as well because the term `6` matches it. -/
theorem isExcluded_five_and_six_witness :
    ((∀ t ∈ splitOn 44 (bytes "5,6"), WellFormedTerm t) ∧
      bytes "5" ∈ splitOn 44 (bytes "5,6")) ∧
    (isExcluded 5 (bytes "5,6") = Except.ok true ∧
      (isExcluded 6 (bytes "5,6") = Except.ok false ↔
        ∀ t ∈ splitOn 44 (bytes "5,6"), t ≠ bytes "5" → ¬ TermMatches 6 t)) :=
  ⟨⟨wellFormed_five_six, by decide⟩,
    isExcluded_five_and_six (bytes "5,6") wellFormed_five_six (by decide)⟩

theorem atoi_digit (c : Byte) (h : isDigit c = true) :
    (atoi (encodeRune c.val)).1 = (c.val : Int) - 48 := by
  have hc : 48 ≤ c.val ∧ c.val ≤ 57 := by simpa [isDigit] using h
  have he : encodeRune c.val = [c] := byteToString_ascii c (by omega)
  have h43 : c ≠ 43 := by
    intro e
    have := congrArg Fin.val e
    have h2 : ((43 : Byte).val) = 43 := rfl
    omega
  have h45 : c ≠ 45 := by
    intro e
    have := congrArg Fin.val e
    have h2 : ((45 : Byte).val) = 45 := rfl
    omega
  have hv : decimalValue [c] = (c.val : Int) - 48 := by
    simp only [decimalValue, h45, h43, if_false, digitsValue, List.foldl_cons, List.foldl_nil]
    omega
  have hdec : IsDecimalInt [c] := by
    refine ⟨?_, ?_, ?_, ?_⟩
    · simp [unsignedPart, h43, h45]
    · simp [unsignedPart, h43, h45, h]
    · rw [hv]; simp only [MinInt, MaxInt]; omega
    · rw [hv]; simp only [MaxInt]; omega
  rw [he, atoi_decimal [c] hdec, hv]

theorem atoi_default_start : (atoi (encodeRune (49 : Byte).val)).1 = 1 := by decide

theorem rowIndex_eq (sheet : shirtSheet)
    (hstart : sheet.StartRow = [] ∨
      ∃ c rest, sheet.StartRow = c :: rest ∧ isDigit c = true) :
    (atoi (encodeRune (startRowOf sheet).val)).1 = startDigitValue sheet := by
  rcases hstart with h | ⟨c, rest, h, hd⟩
  · simp only [startRowOf, startDigitValue, h]
    exact atoi_default_start
  · simp only [startRowOf, startDigitValue, h]
    exact atoi_digit c hd

theorem processRow_excluded_iff (sheet : shirtSheet) (minColNum : Int) (startRow : Byte)
    (k : Nat) (row : List Cell) :
    processRow sheet minColNum startRow k row = Except.ok RowStep.excluded ↔
      isExcluded ((k : Int) + (atoi (encodeRune startRow.val)).1) sheet.ExcludeRows
        = Except.ok true := by
  constructor
  · intro h
    cases hx : isExcluded ((k : Int) + (atoi (encodeRune startRow.val)).1) sheet.ExcludeRows with
    | error f => simp [processRow, hx] at h
    | ok b =>
      cases b with
      | true => rfl
      | false => exact absurd h (processRow_not_excluded sheet minColNum startRow k row hx)
  · intro hx
    simp only [processRow, hx]

set_option maxRecDepth 100000 in
theorem scenario_log :
    (main scenarioFetch
        [scenarioSheet (bytes "S1") (bytes "seller") (bytes "contact")]).1.log =
        [LogLine.retrieving (bytes "A1:E") (bytes "S1"), LogLine.rowExcluded 1,
          LogLine.sellerListings 3 (bytes "seller"), LogLine.totalListings 3 1] ∧
      (main scenarioFetch
        [scenarioSheet (bytes "S1") (bytes "seller") (bytes "contact")]).2 = none := by
  decide

/-- C14 (the code departs from the claim): in the run of the end-to-end scenario three
rows are fetched and one of them is excluded; the driver writes two data records, but
the per-seller line and the closing line both report 3 listings written, because
`totalListings` is increased by the number of fetched rows. -/
theorem reported_listings_count_fetched_rows :
    (dataRecords scenarioFetch
        [scenarioSheet (bytes "S1") (bytes "seller") (bytes "contact")]).length = 2 ∧
      (main scenarioFetch
        [scenarioSheet (bytes "S1") (bytes "seller") (bytes "contact")]).1.log =
        [LogLine.retrieving (bytes "A1:E") (bytes "S1"), LogLine.rowExcluded 1,
          LogLine.sellerListings 3 (bytes "seller"), LogLine.totalListings 3 1] ∧
      (main scenarioFetch
        [scenarioSheet (bytes "S1") (bytes "seller") (bytes "contact")]).2 = none := by
  refine ⟨?_, scenario_log.1, scenario_log.2⟩
  rw [scenario_records]
  rfl

/-- C15: for every sheet whose start row is unspecified or begins with a digit character,
and every fetched row at 0-based offset `k`, the index the driver passes to `isExcluded`
is `k + d`, `d` the numeric value of the start-row digit character and `d = 1` when the
start row is unspecified: the row is skipped as excluded exactly when `isExcluded (k + d)`
is true, and with the default start row the row at offset 0 is tested as index 1. -/
theorem exclusion_index_is_offset_plus_start_digit (sheet : shirtSheet) (minColNum : Int)
    (k : Nat) (row : List Cell)
    (hstart : sheet.StartRow = [] ∨
      ∃ c rest, sheet.StartRow = c :: rest ∧ isDigit c = true) :
    (k : Int) + (atoi (encodeRune (startRowOf sheet).val)).1 = (k : Int) + startDigitValue sheet ∧
      (processRow sheet minColNum (startRowOf sheet) k row = Except.ok RowStep.excluded ↔
        isExcluded ((k : Int) + startDigitValue sheet) sheet.ExcludeRows = Except.ok true) ∧
      (sheet.StartRow = [] → ((0 : Nat) : Int) + startDigitValue sheet = 1) := by
  have hd := rowIndex_eq sheet hstart
  refine ⟨by rw [hd], ?_, ?_⟩
  · rw [processRow_excluded_iff, hd]
  · intro h
    simp [startDigitValue, h]

set_option maxRecDepth 100000 in
/-- Witness of C15: `combinedSheet` has start row `2`, so its row at offset 0 is tested
as index 2, which the term `:2` of its exclusion spec matches. -/
theorem exclusion_index_is_offset_plus_start_digit_witness :
    (combinedSheet.StartRow = [] ∨
      ∃ c rest, combinedSheet.StartRow = c :: rest ∧ isDigit c = true) ∧
    (((0 : Nat) : Int) + (atoi (encodeRune (startRowOf combinedSheet).val)).1 =
        ((0 : Nat) : Int) + startDigitValue combinedSheet ∧
      (processRow combinedSheet 65 (startRowOf combinedSheet) 0 [Cell.str (bytes "header")]
          = Except.ok RowStep.excluded ↔
        isExcluded (((0 : Nat) : Int) + startDigitValue combinedSheet) combinedSheet.ExcludeRows
          = Except.ok true) ∧
      (combinedSheet.StartRow = [] → ((0 : Nat) : Int) + startDigitValue combinedSheet = 1)) :=
  ⟨Or.inr ⟨50, [], by decide, by decide⟩,
    exclusion_index_is_offset_plus_start_digit combinedSheet 65 0 [Cell.str (bytes "header")]
      (Or.inr ⟨50, [], by decide, by decide⟩)⟩

/-- C16: empty terms exclude nothing: for every integer `n`, `isExcluded n ""` is false;
`isExcluded n spec` is false for every spec consisting only of commas; and for a sheet
with no `excludeRows` value the driver skips no row as excluded. -/
theorem isExcluded_empty_terms :
    (∀ n : Int, isExcluded n [] = Except.ok false) ∧
      (∀ (n : Int) (spec : GoString), (∀ c ∈ spec, c = 44) →
        isExcluded n spec = Except.ok false) ∧
      (∀ (sheet : shirtSheet) (minColNum : Int) (startRow : Byte) (k : Nat) (row : List Cell),
        sheet.ExcludeRows = [] →
        processRow sheet minColNum startRow k row ≠ Except.ok RowStep.excluded) := by
  have h2 : ∀ (n : Int) (spec : GoString), (∀ c ∈ spec, c = 44) →
      isExcluded n spec = Except.ok false := fun n spec h =>
    isExcludedLoop_all_empty n (splitOn 44 spec) (splitOn_only_commas spec h)
  refine ⟨fun n => h2 n [] (by simp), h2, ?_⟩
  intro sheet minColNum startRow k row hx
  apply processRow_not_excluded
  rw [hx]
  exact h2 _ [] (by simp)

set_option maxRecDepth 10000 in
theorem only_commas_example : ∀ c ∈ bytes ",,,", c = 44 := by decide

/-- Witness of C16: the spec `,,,` at the index 3. -/
theorem isExcluded_empty_terms_witness :
    (∀ c ∈ bytes ",,,", c = 44) ∧ isExcluded 3 (bytes ",,,") = Except.ok false :=
  ⟨only_commas_example, isExcluded_empty_terms.2.1 3 (bytes ",,,") only_commas_example⟩

/-! ## Lemmas on the maximum of `findMinMaxCol` -/

theorem findMinMaxColStr_eq_foldl (cs : GoString) (mm : Int × Int) :
    findMinMaxColStr cs mm =
      ((cs.filter isUpper).map (fun c => (c.val : Int))).foldl scanStep mm := by
  induction cs generalizing mm with
  | nil => simp [findMinMaxColStr]
  | cons c cs ih =>
    obtain ⟨mn, mx⟩ := mm
    by_cases hu : isUpper c = true
    · have hc : (c.val : Int) > 64 ∧ (c.val : Int) < 91 := by
        simp only [isUpper, decide_eq_true_eq] at hu
        omega
      simp only [findMinMaxColStr, hc, and_self, if_true, List.filter_cons, hu, List.map_cons,
        List.foldl_cons, scanStep]
      by_cases h1 : (c.val : Int) < mn
      · simp only [h1, if_true]
        exact ih _
      · simp only [h1, if_false]
        by_cases h2 : (c.val : Int) > mx
        · simp only [h2, if_true]
          exact ih _
        · simp only [h2, if_false]
          exact ih _
    · have hc : ¬ ((c.val : Int) > 64 ∧ (c.val : Int) < 91) := by
        simp only [isUpper, decide_eq_true_eq] at hu
        omega
      simp only [findMinMaxColStr, hc, if_false, List.filter_cons, hu, Bool.false_eq_true]
      exact ih _

theorem findMinMaxCol_eq_foldl (refs : List GoString) (mm : Int × Int) :
    findMinMaxCol refs mm = (upperCodes refs).foldl scanStep mm := by
  induction refs generalizing mm with
  | nil => simp [findMinMaxCol, upperCodes]
  | cons cc ccs ih =>
    simp only [findMinMaxCol]
    rw [ih, findMinMaxColStr_eq_foldl]
    simp [upperCodes, List.foldl_append]

theorem scanStep_bounds (mm : Int × Int) (c : Int) :
    (scanStep mm c).1 ≤ mm.1 ∧ mm.2 ≤ (scanStep mm c).2 ∧
      ((scanStep mm c).2 = mm.2 ∨ (scanStep mm c).2 = c) := by
  unfold scanStep
  split
  · exact ⟨by simp only []; omega, le_refl _, Or.inl rfl⟩
  · split
    · exact ⟨le_refl _, by simp only []; omega, Or.inr rfl⟩
    · exact ⟨le_refl _, le_refl _, Or.inl rfl⟩

theorem foldl_scanStep_snd_mono (l : List Int) (mm : Int × Int) :
    mm.2 ≤ (l.foldl scanStep mm).2 := by
  induction l generalizing mm with
  | nil => simp
  | cons c cs ih =>
    simp only [List.foldl_cons]
    exact le_trans (scanStep_bounds mm c).2.1 (ih _)

theorem foldl_scanStep_snd_le (l : List Int) (mm : Int × Int) (g : Int) (hm : mm.2 ≤ g)
    (hl : ∀ c ∈ l, c ≤ g) : (l.foldl scanStep mm).2 ≤ g := by
  induction l generalizing mm with
  | nil => simpa using hm
  | cons c cs ih =>
    simp only [List.foldl_cons]
    apply ih
    · rcases (scanStep_bounds mm c).2.2 with e | e
      · rw [e]; exact hm
      · rw [e]; exact hl c (List.mem_cons_self c cs)
    · exact fun d hd => hl d (List.mem_cons_of_mem c hd)

theorem foldl_scanStep_snd_reaches (l : List Int) (g : Int) :
    ∀ mm : Int × Int, g ∈ l → mm.1 ≤ g → mm.2 ≤ g → (∀ c ∈ l, c ≤ g) →
      (l.foldl scanStep mm).2 = g := by
  induction l with
  | nil => intro mm hg; simp at hg
  | cons c cs ih =>
    intro mm hg h1 h2 hl
    have hcs : ∀ d ∈ cs, d ≤ g := fun d hd => hl d (List.mem_cons_of_mem c hd)
    have hb := scanStep_bounds mm c
    simp only [List.foldl_cons]
    by_cases hcg : c = g
    · subst hcg
      have hstep : (scanStep mm c).2 = c := by
        unfold scanStep
        have hn : ¬ c < mm.1 := by omega
        simp only [hn, if_false]
        split
        · rfl
        · omega
      apply le_antisymm
      · exact foldl_scanStep_snd_le cs _ c (le_of_eq hstep) hcs
      · calc c = (scanStep mm c).2 := hstep.symm
          _ ≤ _ := foldl_scanStep_snd_mono cs _
    · have hmem : g ∈ cs := by
        rcases List.mem_cons.mp hg with e | e
        · exact absurd e.symm hcg
        · exact e
      apply ih _ hmem
      · exact le_trans hb.1 h1
      · rcases hb.2.2 with e | e
        · rw [e]; exact h2
        · rw [e]; exact hl c (List.mem_cons_self c cs)
      · exact hcs

theorem findMinMaxCol_snd_of_greatest_later (refs : List GoString) (x g : Int)
    (rest : List Int) (hL : upperCodes refs = x :: rest) (hg : g ∈ rest)
    (hall : ∀ c ∈ upperCodes refs, c ≤ g) :
    (findMinMaxCol refs (MaxInt, MinInt)).2 = g := by
  have hx := upperCodes_lt refs x (by rw [hL]; exact List.mem_cons_self x rest)
  have hgr : 64 < g ∧ g < 91 :=
    upperCodes_lt refs g (by rw [hL]; exact List.mem_cons_of_mem x hg)
  rw [hL] at hall
  rw [findMinMaxCol_eq_foldl, hL, List.foldl_cons]
  have hstep : scanStep (MaxInt, MinInt) x = (x, MinInt) := by
    have : x < MaxInt := by simp only [MaxInt]; omega
    simp only [scanStep, this, if_true]
  rw [hstep]
  apply foldl_scanStep_snd_reaches rest g (x, MinInt) hg
  · exact hall x (List.mem_cons_self x rest)
  · simp only [MinInt, MaxInt]; omega
  · exact fun c hc => hall c (List.mem_cons_of_mem x hc)

theorem exists_greatest : ∀ l : List Int, l ≠ [] → ∃ g ∈ l, ∀ c ∈ l, c ≤ g
  | [], h => absurd rfl h
  | [a], _ => ⟨a, by simp, by simp⟩
  | a :: b :: rest, _ => by
    obtain ⟨g, hg, hall⟩ := exists_greatest (b :: rest) (by simp)
    by_cases hag : a ≤ g
    · refine ⟨g, List.mem_cons_of_mem a hg, ?_⟩
      intro c hc
      rcases List.mem_cons.mp hc with e | e
      · rw [e]; exact hag
      · exact hall c e
    · refine ⟨a, List.mem_cons_self a _, ?_⟩
      intro c hc
      rcases List.mem_cons.mp hc with e | e
      · rw [e]
      · have := hall c e
        omega

/-! ## Claims C17 and C19 -/

/-- C17, counterexample: the references `A`, `A` and three empty ones contain exactly one
distinct uppercase letter, yet max is left at 65 (`A`), not at `MinInt`; and the references
`B`, `A` contain two distinct letters, yet max is left at `MinInt`, not at 66. -/
theorem findMinMaxCol_single_letter_twice :
    ((∀ c ∈ upperCodes [bytes "A", bytes "A", [], [], []], c = 65) ∧
      upperCodes [bytes "A", bytes "A", [], [], []] ≠ [] ∧
      (findMinMaxCol [bytes "A", bytes "A", [], [], []] (MaxInt, MinInt)).2 = 65 ∧
      (65 : Int) ≠ MinInt) ∧
    ((66 : Int) ∈ upperCodes [bytes "B", bytes "A"] ∧
      (65 : Int) ∈ upperCodes [bytes "B", bytes "A"] ∧
      (findMinMaxCol [bytes "B", bytes "A"] (MaxInt, MinInt)).2 = MinInt) := by
  decide

/-- C17, as the code has it: for every list of column references containing at least two
distinct uppercase letters in which the first uppercase letter scanned is not the greatest,
`findMinMaxCol` (started with min = `MaxInt`, max = `MinInt`) leaves max equal to the
greatest letter code observed; and for every list containing exactly one distinct uppercase
letter that occurs more than once it leaves max equal to the code of that letter. -/
theorem findMinMaxCol_max_when_greatest_is_not_first :
    (∀ (refs : List GoString) (x g : Int) (rest : List Int),
        upperCodes refs = x :: rest → g ∈ upperCodes refs →
        (∀ c ∈ upperCodes refs, c ≤ g) → x ≠ g →
        (findMinMaxCol refs (MaxInt, MinInt)).2 = g) ∧
      (∀ (refs : List GoString) (x y : Int) (rest : List Int),
        upperCodes refs = x :: y :: rest → (∀ c ∈ upperCodes refs, c = x) →
        (findMinMaxCol refs (MaxInt, MinInt)).2 = x) := by
  constructor
  · intro refs x g rest hL hg hall hne
    have hmem : g ∈ rest := by
      rw [hL] at hg
      rcases List.mem_cons.mp hg with e | e
      · exact absurd e.symm hne
      · exact e
    exact findMinMaxCol_snd_of_greatest_later refs x g rest hL hmem hall
  · intro refs x y rest hL hall
    have hy : y = x := hall y (by rw [hL]; simp)
    refine findMinMaxCol_snd_of_greatest_later refs x x (y :: rest) hL (by rw [hy]; simp) ?_
    intro c hc
    exact le_of_eq (hall c hc)

/-- Witness of C17 as amended: the references `A`, `A,D`, empty, `C`, `B`, whose first
letter `A` is not the greatest letter `D`. -/
theorem findMinMaxCol_max_when_greatest_is_not_first_witness :
    (upperCodes [bytes "A", bytes "A,D", [], bytes "C", bytes "B"] = 65 :: [65, 68, 67, 66] ∧
      (68 : Int) ∈ upperCodes [bytes "A", bytes "A,D", [], bytes "C", bytes "B"] ∧
      (∀ c ∈ upperCodes [bytes "A", bytes "A,D", [], bytes "C", bytes "B"], c ≤ 68) ∧
      (65 : Int) ≠ 68) ∧
    (findMinMaxCol [bytes "A", bytes "A,D", [], bytes "C", bytes "B"] (MaxInt, MinInt)).2 = 68 :=
  ⟨by decide,
    findMinMaxCol_max_when_greatest_is_not_first.1
      [bytes "A", bytes "A,D", [], bytes "C", bytes "B"] 65 68 [65, 68, 67, 66]
      (by decide) (by decide) (by decide) (by decide)⟩

/-- C19: for every list of column references in which at least two uppercase-letter
occurrences are scanned and the first uppercase letter scanned is the least of all of
them, `findMinMaxCol` (started with min = `MaxInt`, max = `MinInt`) leaves max equal to the
greatest uppercase-letter code observed (one of the codes, and no code is greater); and
when exactly one uppercase-letter occurrence is scanned in total, max is left at
`MinInt`. -/
theorem findMinMaxCol_max_when_first_is_least :
    (∀ (refs : List GoString) (x y : Int) (rest : List Int),
        upperCodes refs = x :: y :: rest → (∀ c ∈ upperCodes refs, x ≤ c) →
        (findMinMaxCol refs (MaxInt, MinInt)).2 ∈ upperCodes refs ∧
          ∀ c ∈ upperCodes refs, c ≤ (findMinMaxCol refs (MaxInt, MinInt)).2) ∧
      (∀ (refs : List GoString) (x : Int),
        upperCodes refs = [x] → (findMinMaxCol refs (MaxInt, MinInt)).2 = MinInt) := by
  constructor
  · intro refs x y rest hL hleast
    obtain ⟨g, hg, hall⟩ := exists_greatest (y :: rest) (by simp)
    have hxg : x ≤ g := by
      have h1 : x ≤ y := hleast y (by rw [hL]; simp)
      have h2 : y ≤ g := hall y (List.mem_cons_self y rest)
      omega
    have hall2 : ∀ c ∈ upperCodes refs, c ≤ g := by
      intro c hc
      rw [hL] at hc
      rcases List.mem_cons.mp hc with e | e
      · rw [e]; exact hxg
      · exact hall c e
    have hmax := findMinMaxCol_snd_of_greatest_later refs x g (y :: rest) hL hg hall2
    rw [hmax]
    exact ⟨by rw [hL]; exact List.mem_cons_of_mem x hg, hall2⟩
  · intro refs x hL
    have hx := upperCodes_lt refs x (by rw [hL]; simp)
    have hlt : x < MaxInt := by simp only [MaxInt]; omega
    rw [findMinMaxCol_eq_foldl, hL]
    simp only [List.foldl_cons, List.foldl_nil, scanStep, hlt, if_true]

/-- Witness of C19: the references `A`, `C`, `B` (first letter least, max = 67), and the
single reference `A` (max left at `MinInt`). -/
theorem findMinMaxCol_max_when_first_is_least_witness :
    ((upperCodes [bytes "A", bytes "C", bytes "B"] = 65 :: 67 :: [66] ∧
        ∀ c ∈ upperCodes [bytes "A", bytes "C", bytes "B"], (65 : Int) ≤ c) ∧
      ((findMinMaxCol [bytes "A", bytes "C", bytes "B"] (MaxInt, MinInt)).2 ∈
          upperCodes [bytes "A", bytes "C", bytes "B"] ∧
        ∀ c ∈ upperCodes [bytes "A", bytes "C", bytes "B"],
          c ≤ (findMinMaxCol [bytes "A", bytes "C", bytes "B"] (MaxInt, MinInt)).2)) ∧
    (upperCodes [bytes "A"] = [65] ∧
      (findMinMaxCol [bytes "A"] (MaxInt, MinInt)).2 = MinInt) :=
  ⟨⟨⟨by decide, by decide⟩,
      findMinMaxCol_max_when_first_is_least.1 [bytes "A", bytes "C", bytes "B"] 65 67 [66]
        (by decide) (by decide)⟩,
    ⟨by decide, findMinMaxCol_max_when_first_is_least.2 [bytes "A"] 65 (by decide)⟩⟩

/-! ## Lemmas for C18 and C20 -/

theorem lettersOf_subset : ∀ (s : GoString) (l : Byte), l ∈ lettersOf s → l ∈ s
  | [], l, h => by simp [lettersOf] at h
  | [c], l, h => by simpa [lettersOf] using h
  | c :: d :: rest, l, h => by
    simp only [lettersOf, List.mem_cons] at h
    rcases h with e | e
    · simp [e]
    · have := lettersOf_subset rest l e
      simp [this]

theorem colBounds_min_le (sheet : shirtSheet) (ref : GoString) (l : Byte)
    (href : ref ∈ columnRefs sheet) (hl : l ∈ lettersOf ref) (hu : isUpper l = true) :
    64 < (colBounds sheet).1 ∧ (colBounds sheet).1 ≤ (l.val : Int) := by
  have hmem : (l.val : Int) ∈ upperCodes (columnRefs sheet) := by
    simp only [upperCodes, List.mem_map, List.mem_filter, List.mem_flatten]
    exact ⟨l, ⟨⟨ref, href, lettersOf_subset ref l hl⟩, hu⟩, rfl⟩
  have hfst : (colBounds sheet).1 = (upperCodes (columnRefs sheet)).foldl min MaxInt :=
    findMinMaxCol_fst (columnRefs sheet) (MaxInt, MinInt)
  have hle := foldl_min_le (upperCodes (columnRefs sheet)) MaxInt
  constructor
  · rw [hfst]
    rcases foldl_min_mem (upperCodes (columnRefs sheet)) MaxInt with e | e
    · rw [e]; simp only [MaxInt]; omega
    · exact (upperCodes_lt (columnRefs sheet) _ e).1
  · rw [hfst]
    exact hle.2 _ hmem

theorem extractEach_ok (row : List Cell) (fcol : Int) :
    ∀ ls : GoString, (∀ l ∈ ls, ∃ v, parseValues row fcol [l] = Except.ok v) →
      ∃ vs, extractEach row fcol ls = Except.ok vs
  | [], _ => ⟨[], rfl⟩
  | l :: ls, h => by
    obtain ⟨v, hv⟩ := h l (List.mem_cons_self l ls)
    obtain ⟨vs, hvs⟩ := extractEach_ok row fcol ls (fun m hm => h m (List.mem_cons_of_mem l hm))
    exact ⟨v :: vs, by simp only [extractEach, hv, hvs]⟩

theorem parseValues_validRef_ok (sheet : shirtSheet) (cells : List GoString) (ref : GoString)
    (href : ref ∈ columnRefs sheet) (hv : ValidRef ref) :
    ∃ v, parseValues (cells.map Cell.str) (colBounds sheet).1 ref = Except.ok v := by
  rcases hv with e | ⟨hodd, hletters⟩
  · subst e
    exact ⟨[], parseValues_nil _ _⟩
  · have hsingle : ∀ l ∈ lettersOf ref,
        ∃ v, parseValues (cells.map Cell.str) (colBounds sheet).1 [l] = Except.ok v := by
      intro l hl
      have hb := colBounds_min_le sheet ref l href hl (hletters l hl)
      have hlt : l.val < 256 := l.isLt
      exact ⟨_, parseValues_text_single cells (colBounds sheet).1 l (by omega)
        (by simp only [MaxInt]; omega)⟩
    have hascii : ∀ l ∈ lettersOf ref, l.val < 128 := by
      intro l hl
      have := hletters l hl
      simp only [isUpper, decide_eq_true_eq] at this
      omega
    obtain ⟨vs, hvs⟩ := extractEach_ok _ _ (lettersOf ref) hsingle
    refine ⟨joinSpaces vs, ?_⟩
    rw [parseValues_eq_iter _ _ ref hodd hascii]
    simp only [parseValuesIter, hvs]

theorem isExcludedLoop_error (n : Int) :
    ∀ (terms : List GoString) (f : Fault),
      isExcludedLoop n terms = Except.error f → f = Fault.couldNotConvert
  | [], f, h => by simp [isExcludedLoop] at h
  | t :: ts, f, h => by
    rcases isExcludedLoop_cons_cases n t ts with e | e | e
    · rw [e] at h
      exact (Except.error.inj h).symm
    · rw [e] at h
      cases h
    · rw [e] at h
      exact isExcludedLoop_error n ts f h

theorem parseValues_append_byte (row : List Cell) (fcol : Int) (c : Byte) :
    ∀ (s : GoString) (v : GoString), s.length % 2 = 1 →
      (∀ b, s.getLast? = some b → b.val < 128) →
      parseValues row fcol s = Except.ok v →
      parseValues row fcol (s ++ [c]) = Except.ok (v ++ [32])
  | [], _, h, _, _ => by simp at h
  | [a], v, _, hlast, hv => by
    have ha : a.val < 128 := hlast a rfl
    show parseValues row fcol (a :: c :: []) = _
    rw [parseValues_compound row fcol a c [] ha, hv, parseValues_nil]
    simp
  | a :: x :: rest, v, hodd, hlast, hv => by
    have hrest : rest.length % 2 = 1 := by
      simp only [List.length_cons] at hodd
      omega
    have hne : rest ≠ [] := by
      intro e; subst e; simp at hrest
    by_cases ha : 128 ≤ a.val
    · rw [parseValues, parseValuesFuel_high row fcol a x rest _ ha] at hv
      cases hv
    · have ha2 : a.val < 128 := by omega
      rw [parseValues_compound row fcol a x rest ha2] at hv
      cases h1 : parseValues row fcol [a] with
      | error f => simp [h1] at hv
      | ok va =>
        cases h2 : parseValues row fcol rest with
        | error f => simp [h1, h2] at hv
        | ok vr =>
          simp only [h1, h2, Except.ok.injEq] at hv
          have hlast2 : ∀ b, rest.getLast? = some b → b.val < 128 := by
            intro b hb
            apply hlast b
            cases rest with
            | nil => exact absurd rfl hne
            | cons r rs =>
              rw [List.getLast?_cons_cons, List.getLast?_cons_cons]
              exact hb
          have ih := parseValues_append_byte row fcol c rest vr hrest hlast2 h2
          show parseValues row fcol (a :: x :: (rest ++ [c])) = _
          rw [parseValues_compound row fcol a x (rest ++ [c]) ha2, h1, ih]
          simp only [← hv, List.append_assoc]

/-! ## Claims C18 and C20 -/

/-- C18: for every sheet whose five column references are each empty, a single uppercase
letter, or uppercase letters alternating with single separator bytes (odd length), and for
every fetched row of text cells, every `parseValues` call the driver makes with first
column = the min computed by `findMinMaxCol` computes only non-negative cell indices and
returns a value; so the only fault the body of the row loop can end with on such a row is
the conversion error of the exclusion spec. -/
theorem driver_extractions_never_fail (sheet : shirtSheet) (cells : List GoString)
    (hvalid : ∀ ref ∈ columnRefs sheet, ValidRef ref) :
    (∀ ref ∈ columnRefs sheet,
        (∀ l ∈ lettersOf ref, 0 ≤ wrapInt ((l.val : Int) - (colBounds sheet).1)) ∧
          ∃ v, parseValues (cells.map Cell.str) (colBounds sheet).1 ref = Except.ok v) ∧
      (∀ (k : Nat) (f : Fault),
        processRow sheet (colBounds sheet).1 (startRowOf sheet) k (cells.map Cell.str)
          = Except.error f → f = Fault.couldNotConvert) := by
  constructor
  · intro ref href
    refine ⟨?_, parseValues_validRef_ok sheet cells ref href (hvalid ref href)⟩
    intro l hl
    rcases hvalid ref href with e | ⟨_, hletters⟩
    · subst e
      simp [lettersOf] at hl
    · have hb := colBounds_min_le sheet ref l href hl (hletters l hl)
      have hlt : l.val < 256 := l.isLt
      rw [wrapInt_of_small _ (by omega) (by simp only [MaxInt]; omega)]
      omega
  · intro k f h
    have ok1 := parseValues_validRef_ok sheet cells sheet.TeamNumCol (by simp [columnRefs])
      (hvalid _ (by simp [columnRefs]))
    have ok2 := parseValues_validRef_ok sheet cells sheet.TeamNameCol (by simp [columnRefs])
      (hvalid _ (by simp [columnRefs]))
    have ok3 := parseValues_validRef_ok sheet cells sheet.SizeCol (by simp [columnRefs])
      (hvalid _ (by simp [columnRefs]))
    have ok4 := parseValues_validRef_ok sheet cells sheet.YearCol (by simp [columnRefs])
      (hvalid _ (by simp [columnRefs]))
    have ok5 := parseValues_validRef_ok sheet cells sheet.DescCol (by simp [columnRefs])
      (hvalid _ (by simp [columnRefs]))
    obtain ⟨v1, h1⟩ := ok1
    obtain ⟨v2, h2⟩ := ok2
    obtain ⟨v3, h3⟩ := ok3
    obtain ⟨v4, h4⟩ := ok4
    obtain ⟨v5, h5⟩ := ok5
    cases hx : isExcluded ((k : Int) + (atoi (encodeRune (startRowOf sheet).val)).1)
        sheet.ExcludeRows with
    | error f2 =>
      simp only [processRow, hx, Except.error.injEq] at h
      subst h
      exact isExcludedLoop_error _ _ _ hx
    | ok b =>
      cases b with
      | true => simp [processRow, hx] at h
      | false =>
        simp only [processRow, hx, h1, h2, h3, h4, h5] at h
        split_ifs at h

set_option maxRecDepth 100000 in
theorem scenario_refs_valid :
    ∀ ref ∈ columnRefs (scenarioSheet (bytes "S1") (bytes "seller") (bytes "contact")),
      ValidRef ref := by
  intro ref href
  have hs : columnRefs (scenarioSheet (bytes "S1") (bytes "seller") (bytes "contact")) =
      [[65], [66], [67], [68], [69]] := by decide
  rw [hs] at href
  simp only [List.mem_cons, List.mem_singleton, List.not_mem_nil, or_false] at href
  rcases href with e | e | e | e | e <;> subst e <;> exact Or.inr (by decide)

/-- Witness of C18: the sheet of the end-to-end scenario and a row of two text cells. -/
theorem driver_extractions_never_fail_witness :
    (∀ ref ∈ columnRefs (scenarioSheet (bytes "S1") (bytes "seller") (bytes "contact")),
      ValidRef ref) ∧
    ((∀ ref ∈ columnRefs (scenarioSheet (bytes "S1") (bytes "seller") (bytes "contact")),
        (∀ l ∈ lettersOf ref, 0 ≤ wrapInt ((l.val : Int) -
            (colBounds (scenarioSheet (bytes "S1") (bytes "seller") (bytes "contact"))).1)) ∧
          ∃ v, parseValues ([bytes "118", bytes "Robonauts"].map Cell.str)
            (colBounds (scenarioSheet (bytes "S1") (bytes "seller") (bytes "contact"))).1 ref
              = Except.ok v) ∧
      (∀ (k : Nat) (f : Fault),
        processRow (scenarioSheet (bytes "S1") (bytes "seller") (bytes "contact"))
          (colBounds (scenarioSheet (bytes "S1") (bytes "seller") (bytes "contact"))).1
          (startRowOf (scenarioSheet (bytes "S1") (bytes "seller") (bytes "contact"))) k
          ([bytes "118", bytes "Robonauts"].map Cell.str)
          = Except.error f → f = Fault.couldNotConvert)) :=
  ⟨scenario_refs_valid,
    driver_extractions_never_fail (scenarioSheet (bytes "S1") (bytes "seller") (bytes "contact"))
      [bytes "118", bytes "Robonauts"] scenario_refs_valid⟩

/-- C20, counterexample: with the row `["x"]` and first column `A`, the three-byte
reference made of `A` and the two bytes of `é` (195, 169) is extracted without a fault,
giving `x` and a space; followed by the byte `B` it is not that value followed by a space:
the recursion on the pair (169, `B`) does not end. -/
theorem parseValues_append_after_high_byte :
    ([65, 195, 169] : GoString).length % 2 = 1 ∧
      parseValues (textRow ["x"]) 65 [65, 195, 169] = Except.ok (bytes "x ") ∧
      parseValues (textRow ["x"]) 65 ([65, 195, 169] ++ [66]) =
        Except.error Fault.stackOverflow := by
  decide

/-- C20, as the code has it: for every row, first column `f`, odd-length (so non-empty)
reference `s` whose last byte is an ASCII character (below 128) and on which `parseValues`
does not fail, and every byte `c`, `parseValues` on `s` followed by `c` returns the value
of `s` followed by a single space; so a two-byte reference such as `AB` yields the value
of column `A` and a trailing space, whatever column `B` holds. -/
theorem parseValues_trailing_byte_adds_space (row : List Cell) (f : Int) (s : GoString)
    (c : Byte) (v : GoString) (hodd : s.length % 2 = 1)
    (hlast : ∀ b, s.getLast? = some b → b.val < 128)
    (hv : parseValues row f s = Except.ok v) :
    parseValues row f (s ++ [c]) = Except.ok (v ++ [32]) :=
  parseValues_append_byte row f c s v hodd hlast hv

theorem last_byte_of_A : ∀ b, (bytes "A").getLast? = some b → b.val < 128 := by
  intro b hb
  have h : (bytes "A").getLast? = some 65 := by decide
  rw [h] at hb
  cases hb
  decide

/-- Witness of C20 as amended: the reference `AB` on a row whose column `B` is not a text
cell gives the text of column `A` and a space. -/
theorem parseValues_trailing_byte_adds_space_witness :
    (((bytes "A").length % 2 = 1 ∧
        (∀ b, (bytes "A").getLast? = some b → b.val < 128) ∧
        parseValues [Cell.str (bytes "x"), Cell.other] 65 (bytes "A") = Except.ok (bytes "x")) ∧
      bytes "A" ++ [66] = bytes "AB") ∧
    parseValues [Cell.str (bytes "x"), Cell.other] 65 (bytes "A" ++ [66]) =
      Except.ok (bytes "x" ++ [32]) :=
  ⟨⟨⟨by decide, last_byte_of_A, by decide⟩, by decide⟩,
    parseValues_trailing_byte_adds_space [Cell.str (bytes "x"), Cell.other] 65 (bytes "A") 66
      (bytes "x") (by decide) last_byte_of_A (by decide)⟩

end ShirtAggregator
